import Mathlib

/-!
Verification of the rocq-mcp bridge (a Go program that drives the vsrocq
LSP prover from an MCP server) against its natural-language specification.

The development shallowly embeds the parts of the source the claims touch:

* a `Json` value type standing for the JSON documents the program moves
  around as `json.RawMessage` byte slices (numbers are modelled as
  integers: none of the claims depends on float payloads);
* a compact serializer `encJson` modelling `encoding/json.Marshal` and a
  fuel-indexed recursive-descent parser `pVal` modelling
  `encoding/json.Unmarshal`'s syntax (the serializer emits no insignificant
  whitespace, and the parser does not model Go's tolerance of it; Go's
  optional HTML escaping of `<`, `>`, `&` is likewise not modelled — both
  differences are invisible to every claim, which only compare parsed
  values);
* the `lspCodec` framing (`Content-Length` header + body) from `lsp.go`;
* the `vsrocqClient` pending-request machinery from `vsrocq.go`
  (`readLoop`, `request`) as an event-trace state machine;
* the Ppcmd renderer, proof-view parser and text formatters from
  `internal/rocq/format.go`;
* the per-document registry (`openDoc` / `closeDoc` / `syncDoc`) from
  `state.go` as a state machine over operation traces, with the fallible
  environment (file reads, client spawn, notification writes) passed in as
  oracle data on each operation;
* the collector loop (`WaitNotifications` / `collectResultsFull`) from
  `proof.go` over an explicit arrival trace.

The embedding models a byte of the wire as a `Char`, so `len` in Go
corresponds to `List.length` over the character list; the two agree on the
ASCII wire traffic the codec produces.
-/

namespace RocqMcp

/-! ## JSON values

`Json` stands for a parsed JSON document. The Go code passes subdocuments
around as raw bytes (`json.RawMessage`); here a subdocument is a `Json`
value, and where Go falls back to the raw byte text (`string(raw)`) the
model re-serializes the value with `encJson`. -/

/-- A JSON value. Numbers are integers (see the header comment). -/
inductive Json where
  | null
  | bool (b : Bool)
  | num (n : Int)
  | str (s : String)
  | arr (elems : List Json)
  | obj (fields : List (String × Json))
deriving Repr, Inhabited

/-- First binding of a key in an object's field list (the serializer below
never emits a duplicate key, so first-wins versus Go's last-wins for
duplicates is invisible here). -/
def jLookup (fields : List (String × Json)) (key : String) : Option Json :=
  match fields with
  | [] => none
  | (k, v) :: rest => if k = key then some v else jLookup rest key

/-! ## The serializer (model of `encoding/json.Marshal`) -/

/-- Hexadecimal digit character for `n % 16` (lowercase, as Go emits). -/
def hexDigitChar (n : Nat) : Char :=
  if n < 10 then Char.ofNat (48 + n) else Char.ofNat (87 + n)

/-- JSON escape of one character, Go-style: quote and backslash escaped,
`\n`, `\r`, `\t` named, other control characters as `\u00XX`. -/
def escChar (c : Char) : List Char :=
  if c = '"' then ['\\', '"']
  else if c = '\\' then ['\\', '\\']
  else if c = '\n' then ['\\', 'n']
  else if c = '\r' then ['\\', 'r']
  else if c = '\t' then ['\\', 't']
  else if c.toNat < 32 then
    ['\\', 'u', '0', '0', hexDigitChar (c.toNat / 16), hexDigitChar (c.toNat % 16)]
  else [c]

/-- A string literal: quote, escaped body, quote. -/
def encStr (s : String) : List Char :=
  '"' :: (s.data.flatMap escChar ++ ['"'])

/-- Decimal digit characters of a natural number, most significant first. -/
def natChars (n : Nat) : List Char :=
  if h : n < 10 then [Char.ofNat (48 + n)]
  else natChars (n / 10) ++ [Char.ofNat (48 + n % 10)]
termination_by n
decreasing_by omega

/-- Decimal characters of an integer: optional minus sign, then digits. -/
def intChars (i : Int) : List Char :=
  (if i < 0 then ['-'] else []) ++ natChars i.natAbs

mutual
/-- Serialize a value to its compact JSON text. -/
def encJson : Json → List Char
  | .null => ['n', 'u', 'l', 'l']
  | .bool b => if b then ['t', 'r', 'u', 'e'] else ['f', 'a', 'l', 's', 'e']
  | .num n => intChars n
  | .str s => encStr s
  | .arr es => '[' :: (encElems es ++ [']'])
  | .obj fs => '\x7b' :: (encFields fs ++ ['\x7d'])

/-- Array elements: first element then comma-separated tail. -/
def encElems : List Json → List Char
  | [] => []
  | v :: vs => encJson v ++ encMoreElems vs

/-- Comma-prefixed trailing array elements. -/
def encMoreElems : List Json → List Char
  | [] => []
  | v :: vs => ',' :: (encJson v ++ encMoreElems vs)

/-- Object members: first member then comma-separated tail. -/
def encFields : List (String × Json) → List Char
  | [] => []
  | (k, v) :: fs => encStr k ++ ':' :: (encJson v ++ encMoreFields fs)

/-- Comma-prefixed trailing object members. -/
def encMoreFields : List (String × Json) → List Char
  | [] => []
  | (k, v) :: fs => ',' :: (encStr k ++ ':' :: (encJson v ++ encMoreFields fs))
end

/-- The raw text of a subdocument, as Go's `string(raw)` on the bytes of a
`json.RawMessage` (modulo re-serialization, see `Json`). -/
def rawText (j : Json) : String :=
  String.mk (encJson j)

/-! ## The `vsrocqClient` pending-request machinery (`vsrocq.go`)

The client keeps `pending : map[int64]chan *rawMessage` under `pendingMu`.
`request` registers a one-slot channel, writes the framed request, and
blocks on the channel; `readLoop` decodes incoming messages and, for a
response whose id is registered, removes the entry and delivers into the
channel. The model below tracks, per sink id, whether it is still waiting,
has been delivered to, or has been closed; the message stream consumed by
`readLoop` is an explicit list. -/

/-- What `readLoop` sees from one `codec.decode()` call, classified the way
the code classifies it (`msg.ID`/`msg.Method` presence). -/
inductive InMsg where
  | response (id : Int)
  | serverRequest
  | notification (known : Bool)
  | decodeError
deriving Repr, DecidableEq

/-- Pending-sink bookkeeping of one `vsrocqClient`. -/
structure ClientPending where
  /-- Ids registered in `pending` whose channel has not been delivered to. -/
  waiting : List Int
  /-- Ids whose channel got its response delivered (`ch <- msg`). -/
  delivered : List Int
  /-- Ids whose channel was closed. The Go code contains no `close` on a
  pending channel, so no transition ever adds to this field. -/
  closedSinks : List Int
deriving Repr, DecidableEq

/-- One non-terminating iteration of `readLoop` (vsrocq.go lines 58–92):
a response pops the pending sink (if registered) and delivers into it; a
server→client request is answered through the codec; a notification is
dispatched to its handler or logged. None of these touches a sink's
open/closed status. -/
def readStep (st : ClientPending) (m : InMsg) : ClientPending :=
  match m with
  | .response id =>
      if id ∈ st.waiting then
        { st with waiting := st.waiting.erase id, delivered := id :: st.delivered }
      else st
  | .serverRequest => st
  | .notification _ => st
  | .decodeError => st

/-- Run `readLoop` over a decode stream: it processes messages until the
first `decodeError`, where it logs and returns (vsrocq.go lines 60–63),
changing nothing else. -/
def runReader (st : ClientPending) : List InMsg → ClientPending
  | [] => st
  | .decodeError :: _ => st
  | m :: rest => runReader (readStep st m) rest

/-- Outcome of a `request` call as observable by its caller. -/
inductive ReqOutcome where
  | errReturn
  | blockedForever
deriving Repr, DecidableEq

/-- A `request` issued after the reader task has terminated (vsrocq.go
lines 142–180): it registers a sink, marshals the params, writes the frame,
and then blocks on `resp := <-ch`. Marshal or write failure returns an
error; otherwise nothing ever delivers into or closes the channel (the
reader was the only deliverer and is gone), so the call blocks forever. -/
def requestWithDeadReader (marshalOk encodeOk : Bool) : ReqOutcome :=
  if ¬marshalOk then .errReturn
  else if ¬encodeOk then .errReturn
  else .blockedForever

/-- Steps of `request` (vsrocq.go lines 142–180), in program order. -/
inductive ReqEvent where
  | allocId
  | registerSink
  | unregisterSink
  | writeFrame
  | awaitResponse
deriving Repr, DecidableEq

/-- The event trace of one `request(method, params)` call, for each
combination of marshal(params) success (`marshalOk`, relevant only when
params are non-nil, `hasParams`) and `codec.encode` success (`encodeOk`):
the id is allocated, the sink is registered under `pendingMu`, then params
are marshalled (failure unregisters and returns), then the frame is
written (failure unregisters and returns), then the call blocks on the
sink. -/
def requestTrace (hasParams marshalOk encodeOk : Bool) : List ReqEvent :=
  [.allocId, .registerSink] ++
    (if hasParams ∧ ¬marshalOk then [.unregisterSink]
     else [.writeFrame] ++
       (if encodeOk then [.awaitResponse] else [.unregisterSink]))

/-- The event trace of one `request(method, params)` call of the
superseded client variant (part_004 lines 90–106): it first calls
`codec.sendRequest` (lsp.go lines 124–142), which allocates the id,
marshals non-nil params (failure returns before anything is written) and
writes the frame through `codec.encode`; only after `sendRequest`
returns without error does `request` create the channel and insert it
into `pending`, then block on the sink. A marshal or write failure
returns before the sink ever exists, so no unregistration occurs. -/
def requestTraceV0 (hasParams marshalOk encodeOk : Bool) : List ReqEvent :=
  [.allocId] ++
    (if hasParams ∧ ¬marshalOk then []
     else [.writeFrame] ++
       (if encodeOk then [.registerSink, .awaitResponse] else []))

/-! ## The parser (model of `encoding/json.Unmarshal` syntax)

Recursive descent over a character list. Structural recursion on the input
handles strings and numbers; values recurse on an explicit fuel, which the
top-level entry point sets large enough for every parse the development
evaluates (`jsize_le_enc_length` below bounds the fuel a serialized value
needs). -/

/-- ASCII decimal digit test. -/
def isDigitCh (c : Char) : Bool :=
  48 ≤ c.toNat ∧ c.toNat ≤ 57

/-- Split a leading run of decimal digits from the rest. -/
def takeDigits : List Char → List Char × List Char
  | [] => ([], [])
  | c :: cs =>
      if isDigitCh c then
        match takeDigits cs with
        | (ds, r) => (c :: ds, r)
      else ([], c :: cs)

/-- Numeric value of a digit run, most significant first. -/
def digitsNat (ds : List Char) : Nat :=
  ds.foldl (fun a c => a * 10 + (c.toNat - 48)) 0

/-- Value of one hexadecimal digit character. -/
def hexVal (c : Char) : Option Nat :=
  if 48 ≤ c.toNat ∧ c.toNat ≤ 57 then some (c.toNat - 48)
  else if 97 ≤ c.toNat ∧ c.toNat ≤ 102 then some (c.toNat - 87)
  else if 65 ≤ c.toNat ∧ c.toNat ≤ 70 then some (c.toNat - 55)
  else none

/-- Single-character escapes accepted after a backslash. -/
def unescChar (e : Char) : Option Char :=
  if e = '"' ∨ e = '\\' ∨ e = '/' then some e
  else if e = 'n' then some '\n'
  else if e = 'r' then some '\r'
  else if e = 't' then some '\t'
  else if e = 'b' then some (Char.ofNat 8)
  else if e = 'f' then some (Char.ofNat 12)
  else none

/-- Parse a string body after the opening quote, unescaping as Go does;
`acc` holds the already-read characters reversed. -/
def pStrBody (acc : List Char) : List Char → Option (String × List Char)
  | '"' :: rest => some (String.mk acc.reverse, rest)
  | '\\' :: 'u' :: a :: b :: c :: d :: rest =>
      (match hexVal a, hexVal b, hexVal c, hexVal d with
       | some va, some vb, some vc, some vd =>
           pStrBody (Char.ofNat (((va * 16 + vb) * 16 + vc) * 16 + vd) :: acc) rest
       | _, _, _, _ => none)
  | '\\' :: e :: rest =>
      (match unescChar e with
       | some ch => pStrBody (ch :: acc) rest
       | none => none)
  | c :: rest => pStrBody (c :: acc) rest
  | [] => none

/-- Parse an integer: optional minus sign, then a nonempty digit run.
(Fractions and exponents are not modelled, matching the integer-only
`Json.num`.) -/
def pNum (cs : List Char) : Option (Int × List Char) :=
  match cs with
  | '-' :: rest =>
      (match takeDigits rest with
       | ([], _) => none
       | (ds, r) => some (-(digitsNat ds : Int), r))
  | _ =>
      (match takeDigits cs with
       | ([], _) => none
       | (ds, r) => some ((digitsNat ds : Int), r))

mutual
/-- Fuel a serialized value needs in `pVal` (compare
`jsize_le_enc_length`). -/
def jsize : Json → Nat
  | .null => 1
  | .bool _ => 1
  | .num _ => 1
  | .str _ => 1
  | .arr es => 1 + jsizeElems es
  | .obj fs => 1 + jsizeFields fs

/-- Fuel for an array's element list. -/
def jsizeElems : List Json → Nat
  | [] => 0
  | v :: vs => 1 + jsize v + jsizeElems vs

/-- Fuel for an object's member list. -/
def jsizeFields : List (String × Json) → Nat
  | [] => 0
  | (_, v) :: fs => 1 + jsize v + jsizeFields fs
end

mutual
/-- Parse one JSON value. -/
def pVal : Nat → List Char → Option (Json × List Char)
  | 0, _ => none
  | fuel + 1, cs =>
      match cs with
      | 'n' :: 'u' :: 'l' :: 'l' :: r => some (.null, r)
      | 't' :: 'r' :: 'u' :: 'e' :: r => some (.bool true, r)
      | 'f' :: 'a' :: 'l' :: 's' :: 'e' :: r => some (.bool false, r)
      | '"' :: r => (pStrBody [] r).map (fun p => (.str p.1, p.2))
      | '[' :: ']' :: r => some (.arr [], r)
      | '[' :: r => (pElems fuel r).map (fun p => (.arr p.1, p.2))
      | '\x7b' :: '\x7d' :: r => some (.obj [], r)
      | '\x7b' :: r => (pFields fuel r).map (fun p => (.obj p.1, p.2))
      | c :: rest =>
          if c = '-' ∨ isDigitCh c then
            (pNum (c :: rest)).map (fun p => (.num p.1, p.2))
          else none
      | [] => none

/-- Parse one-or-more comma-separated array elements up to the closing
bracket (the empty array is handled in `pVal`). -/
def pElems : Nat → List Char → Option (List Json × List Char)
  | 0, _ => none
  | fuel + 1, cs =>
      match pVal fuel cs with
      | none => none
      | some (v, r) =>
          match r with
          | ',' :: r1 => (pElems fuel r1).map (fun p => (v :: p.1, p.2))
          | ']' :: r1 => some ([v], r1)
          | _ => none

/-- Parse one-or-more comma-separated object members up to the closing
brace (the empty object is handled in `pVal`). -/
def pFields : Nat → List Char → Option (List (String × Json) × List Char)
  | 0, _ => none
  | fuel + 1, cs =>
      match cs with
      | '"' :: r =>
          (match pStrBody [] r with
           | none => none
           | some (k, r1) =>
               match r1 with
               | ':' :: r2 =>
                   (match pVal fuel r2 with
                    | none => none
                    | some (v, r3) =>
                        match r3 with
                        | ',' :: r4 => (pFields fuel r4).map (fun p => ((k, v) :: p.1, p.2))
                        | '\x7d' :: r4 => some ([(k, v)], r4)
                        | _ => none)
               | _ => none)
      | _ => none
end

/-- Parse a complete JSON document (no trailing bytes allowed, as Go's
`Unmarshal`). The fuel is an artifact of totality; `jsize_le_enc_length`
shows it suffices for any serialized value. -/
def jparse (cs : List Char) : Option Json :=
  match pVal (cs.length + 1) cs with
  | some (j, []) => some j
  | _ => none

/-! ## The framing codec (`lsp.go`)

`encode` writes `Content-Length: <N>\r\n\r\n` then the N-byte JSON body;
`decode` reads CRLF-terminated header lines until a blank line, requires a
parsed `Content-Length`, reads exactly N bytes and unmarshals them into
the `rawMessage` envelope. -/

/-- One `ReadString('\n')` call: the line up to and including the newline,
and the rest; `none` when the stream ends first (bufio returns an error
then, and `decode` propagates it). -/
def readLine : List Char → Option (List Char × List Char)
  | [] => none
  | c :: cs =>
      if c = '\n' then some ([c], cs)
      else (readLine cs).map (fun p => (c :: p.1, p.2))

/-- Model of `strings.TrimRight(line, "\r\n")`. -/
def trimCRLF (l : List Char) : List Char :=
  (l.reverse.dropWhile (fun c => c = '\r' ∨ c = '\n')).reverse

/-- Model of `strings.CutPrefix`. -/
def stripPre : List Char → List Char → Option (List Char)
  | [], cs => some cs
  | _ :: _, [] => none
  | p :: ps, c :: cs => if p = c then stripPre ps cs else none

/-- Model of `strconv.Atoi`: optional sign, then a nonempty digit run and
nothing else. -/
def atoiChars (cs : List Char) : Option Int :=
  let digitsOnly : List Char → Option Int := fun ds =>
    match takeDigits ds with
    | ([], _) => none
    | (taken, []) => some ((digitsNat taken : Nat) : Int)
    | (_, _ :: _) => none
  match cs with
  | '-' :: rest => (digitsOnly rest).map (fun n => -n)
  | '+' :: rest => digitsOnly rest
  | _ => digitsOnly cs

/-- Consuming one line always shrinks the stream. -/
theorem readLine_shrinks :
    ∀ cs l r, readLine cs = some (l, r) → r.length < cs.length := by
  intro cs
  induction cs with
  | nil => intro l r h; simp [readLine] at h
  | cons c cs ih =>
      intro l r h
      by_cases hc : c = '\n'
      · simp [readLine, hc] at h
        obtain ⟨-, rfl⟩ := h
        simp
      · simp only [readLine, if_neg hc, Option.map_eq_some'] at h
        obtain ⟨⟨l1, r1⟩, h1, h2⟩ := h
        obtain ⟨-, rfl⟩ := Prod.mk.injEq .. ▸ h2
        have := ih l1 r1 h1
        simp only [List.length_cons]
        omega

/-- The header characters of the `Content-Length` header. -/
def clKey : List Char :=
  "Content-Length: ".data

/-- The header loop of `decode` (lsp.go lines 88–110): read lines until a
blank one, remembering the last parsed `Content-Length` value and ignoring
other headers; a malformed `Content-Length` value is an immediate error. -/
def readHeaders (cl : Option Int) (cs : List Char) : Option (Option Int × List Char) :=
  match h : readLine cs with
  | none => none
  | some (line, rest) =>
      let t := trimCRLF line
      if t = [] then some (cl, rest)
      else
        match stripPre clKey t with
        | some v =>
            (match atoiChars v with
             | some n => readHeaders (some n) rest
             | none => none)
        | none => readHeaders cl rest
termination_by cs.length
decreasing_by
  all_goals exact readLine_shrinks cs line rest h

/-- Model of `io.ReadFull` for `n` bytes. -/
def readN (n : Nat) (cs : List Char) : Option (List Char × List Char) :=
  if cs.length < n then none else some (cs.take n, cs.drop n)

/-- The JSON-RPC error object of a response (`jsonRPCError`). -/
structure RpcError where
  code : Int
  message : String
  data : Option Json
deriving Repr

/-- The decoded generic envelope (`rawMessage` in lsp.go): `id` and
`method` are pointers (absent decodes as `none`), `params` and `result`
keep the raw subdocument, `jsonrpc` is a plain string. -/
structure RawMsg where
  jsonrpc : String
  id : Option Int
  method : Option String
  params : Option Json
  result : Option Json
  error : Option RpcError
deriving Repr

/-- Go `Unmarshal` into a plain `string` field: absent and `null` leave the
zero value, a string sets it, any other type is an error. -/
def goStrField (v : Option Json) : Option String :=
  match v with
  | none => some ""
  | some .null => some ""
  | some (.str s) => some s
  | some _ => none

/-- Go `Unmarshal` into an `*int64` field. -/
def goOptIntField (v : Option Json) : Option (Option Int) :=
  match v with
  | none => some none
  | some .null => some none
  | some (.num n) => some (some n)
  | some _ => none

/-- Go `Unmarshal` into a `*string` field. -/
def goOptStrField (v : Option Json) : Option (Option String) :=
  match v with
  | none => some none
  | some .null => some none
  | some (.str s) => some (some s)
  | some _ => none

/-- Go `Unmarshal` into a plain `int` field. -/
def goIntField (v : Option Json) : Option Int :=
  match v with
  | none => some 0
  | some .null => some 0
  | some (.num n) => some n
  | some _ => none

/-- Go `Unmarshal` into the `*jsonRPCError` field. -/
def goErrField (v : Option Json) : Option (Option RpcError) :=
  match v with
  | none => some none
  | some .null => some none
  | some (.obj fs) =>
      (match goIntField (jLookup fs "code"), goStrField (jLookup fs "message") with
       | some code, some msg => some (some ⟨code, msg, jLookup fs "data"⟩)
       | _, _ => none)
  | some _ => none

/-- Go `Unmarshal` of a JSON document into the `rawMessage` envelope. -/
def decodeRawMsg (j : Json) : Option RawMsg :=
  match j with
  | .null => some ⟨"", none, none, none, none, none⟩
  | .obj fs =>
      (match goStrField (jLookup fs "jsonrpc"), goOptIntField (jLookup fs "id"),
             goOptStrField (jLookup fs "method"), goErrField (jLookup fs "error") with
       | some ver, some id, some method, some err =>
           some ⟨ver, id, method, jLookup fs "params", jLookup fs "result", err⟩
       | _, _, _, _ => none)
  | _ => none

/-- An outgoing request (`jsonRPCRequest`). -/
structure JsonRpcRequest where
  jsonrpc : String
  id : Int
  method : String
  params : Option Json
deriving Repr

/-- Marshal of `jsonRPCRequest`: fields in struct order, `params` omitted
when nil (`omitempty`). -/
def reqJson (req : JsonRpcRequest) : Json :=
  .obj ([("jsonrpc", .str req.jsonrpc), ("id", .num req.id), ("method", .str req.method)] ++
    (match req.params with
     | none => []
     | some p => [("params", p)]))

/-- The `Content-Length` frame around a body. -/
def frameChars (body : List Char) : List Char :=
  clKey ++ natChars body.length ++ ['\r', '\n', '\r', '\n'] ++ body

/-- `encode` of a request message (lsp.go lines 70–85): header then the
marshalled body. -/
def lspEncodeRequest (req : JsonRpcRequest) : List Char :=
  frameChars (encJson (reqJson req))

/-- `decode` (lsp.go lines 88–122): header loop, length check, exact body
read, JSON unmarshal into the envelope. Returns the message and the
unconsumed stream. -/
def lspDecode (cs : List Char) : Option (RawMsg × List Char) :=
  match readHeaders none cs with
  | none => none
  | some (none, _) => none
  | some (some n, rest) =>
      if n < 0 then none
      else
        match readN n.toNat rest with
        | none => none
        | some (body, rest2) =>
            match jparse body with
            | none => none
            | some j => (decodeRawMsg j).map (fun m => (m, rest2))

/-! ## Round-trip lemmas for the codec -/

/-- True when the stream cannot extend a decimal digit run. -/
def noDigitHead : List Char → Bool
  | [] => true
  | c :: _ => !(isDigitCh c)

/-- Digit characters are digit characters. -/
theorem isDigitCh_ofNat (k : Nat) (h : k < 10) :
    isDigitCh (Char.ofNat (48 + k)) = true := by
  interval_cases k <;> decide

/-- Code point of a digit character. -/
theorem toNat_ofNat_digit (k : Nat) (h : k < 10) :
    (Char.ofNat (48 + k)).toNat = 48 + k := by
  interval_cases k <;> decide

/-- Unfolding `natChars` with the last digit split off. -/
theorem natChars_split (n : Nat) :
    natChars n = (if n < 10 then [] else natChars (n / 10)) ++ [Char.ofNat (48 + n % 10)] := by
  rw [natChars.eq_def]
  by_cases h : n < 10
  · simp [h, Nat.mod_eq_of_lt h]
  · simp [h]

/-- Every character `natChars` emits is a digit. -/
theorem natChars_digits (n : Nat) : ∀ c ∈ natChars n, isDigitCh c = true := by
  induction n using Nat.strong_induction_on with
  | _ n ih =>
      rw [natChars_split]
      intro c hc
      rw [List.mem_append] at hc
      rcases hc with hc | hc
      · by_cases h : n < 10
        · simp [h] at hc
        · exact ih (n / 10) (Nat.div_lt_self (by omega) (by omega)) c (by simpa [h] using hc)
      · rw [List.mem_singleton] at hc
        subst hc
        exact isDigitCh_ofNat (n % 10) (Nat.mod_lt _ (by omega))

/-- A digit run is never empty. -/
theorem natChars_ne_nil (n : Nat) : natChars n ≠ [] := by
  rw [natChars_split]
  simp

/-- Reading back the digit run recovers the number. -/
theorem digitsNat_natChars (n : Nat) : digitsNat (natChars n) = n := by
  induction n using Nat.strong_induction_on with
  | _ n ih =>
      rw [natChars_split]
      unfold digitsNat
      rw [List.foldl_append]
      by_cases h : n < 10
      · simp only [if_pos h, List.foldl_nil, List.foldl_cons]
        rw [toNat_ofNat_digit (n % 10) (Nat.mod_lt _ (by omega))]
        omega
      · simp only [if_neg h, List.foldl_cons, List.foldl_nil]
        have := ih (n / 10) (Nat.div_lt_self (by omega) (by omega))
        unfold digitsNat at this
        rw [this, toNat_ofNat_digit (n % 10) (Nat.mod_lt _ (by omega))]
        omega

/-- `takeDigits` does not move on a non-digit head. -/
theorem takeDigits_stop (cs : List Char) (h : noDigitHead cs = true) :
    takeDigits cs = ([], cs) := by
  match cs with
  | [] => rfl
  | c :: t =>
      simp only [noDigitHead, Bool.not_eq_true'] at h
      simp [takeDigits, h]

/-- `takeDigits` consumes exactly a digit run. -/
theorem takeDigits_run (ds : List Char) (hds : ∀ c ∈ ds, isDigitCh c = true)
    (rest : List Char) (hr : noDigitHead rest = true) :
    takeDigits (ds ++ rest) = (ds, rest) := by
  induction ds with
  | nil => simpa using takeDigits_stop rest hr
  | cons c t ih =>
      have hc : isDigitCh c = true := hds c (by simp)
      have ht := ih (fun x hx => hds x (by simp [hx]))
      simp [takeDigits, hc, ht]

/-- A digit is neither sign character. -/
theorem digit_ne_sign {c : Char} (h : isDigitCh c = true) : c ≠ '-' ∧ c ≠ '+' := by
  constructor <;> (intro he; subst he; exact absurd h (by decide))

/-- `strconv.Atoi` reads back what the frame writer printed. -/
theorem atoiChars_natChars (n : Nat) : atoiChars (natChars n) = some (n : Int) := by
  obtain ⟨c, t, hct⟩ : ∃ c t, natChars n = c :: t :=
    List.exists_cons_of_ne_nil (natChars_ne_nil n)
  have hc : isDigitCh c = true := natChars_digits n c (hct ▸ List.mem_cons_self ..)
  obtain ⟨hm, hp⟩ := digit_ne_sign hc
  have htake : takeDigits (c :: t) = (c :: t, []) := by
    have := takeDigits_run (natChars n) (natChars_digits n) [] rfl
    rw [hct] at this
    simpa using this
  rw [hct]
  unfold atoiChars
  simp only [hm, hp]
  rw [show ((c :: t : List Char)) = c :: t from rfl]
  simp only [htake]
  have : digitsNat (c :: t) = n := by
    have := digitsNat_natChars n
    rwa [hct] at this
  simp [this, hm, hp]

/-- `pNum` reads back a serialized integer whenever the remainder cannot
extend the digit run. -/
theorem pNum_intChars (i : Int) (rest : List Char) (hr : noDigitHead rest = true) :
    pNum (intChars i ++ rest) = some (i, rest) := by
  have htake : takeDigits (natChars i.natAbs ++ rest) = (natChars i.natAbs, rest) :=
    takeDigits_run _ (natChars_digits _) rest hr
  have hval : digitsNat (natChars i.natAbs) = i.natAbs := digitsNat_natChars i.natAbs
  by_cases hi : i < 0
  · have harg : intChars i ++ rest = '-' :: (natChars i.natAbs ++ rest) := by
      simp [intChars, hi]
    rw [harg]
    unfold pNum
    simp only [htake]
    have hne := natChars_ne_nil i.natAbs
    match hnc : natChars i.natAbs with
    | [] => exact absurd hnc hne
    | c :: t =>
        rw [hnc] at htake hval
        simp only [htake, hval]
        have hneg : -((i.natAbs : Nat) : Int) = i := by omega
        rw [hneg]
  · have harg : intChars i ++ rest = natChars i.natAbs ++ rest := by
      simp [intChars, hi]
    rw [harg]
    obtain ⟨c, t, hct⟩ : ∃ c t, natChars i.natAbs = c :: t :=
      List.exists_cons_of_ne_nil (natChars_ne_nil i.natAbs)
    have hc : isDigitCh c = true := natChars_digits _ c (hct ▸ List.mem_cons_self ..)
    obtain ⟨hm, -⟩ := digit_ne_sign hc
    rw [hct] at htake hval ⊢
    rw [List.cons_append] at htake ⊢
    unfold pNum
    split
    · rename_i r heq
      rw [List.cons.injEq] at heq
      exact absurd heq.1 hm
    · rw [htake]
      simp only [hval]
      have hpos : ((i.natAbs : Nat) : Int) = i := by omega
      rw [hpos]

/-- Reading a hex digit back gives the value it encodes. -/
theorem hexVal_hexDigitChar (k : Nat) (h : k < 16) : hexVal (hexDigitChar k) = some k := by
  interval_cases k <;> decide

/-- Unescaping one escaped character undoes the escaping. -/
theorem pStrBody_escChar (c : Char) (acc rest : List Char) :
    pStrBody acc (escChar c ++ rest) = pStrBody (c :: acc) rest := by
  unfold escChar
  by_cases h1 : c = '"'
  · subst h1; simp [pStrBody, unescChar]
  by_cases h2 : c = '\\'
  · subst h2; simp [h1, pStrBody, unescChar]
  by_cases h3 : c = '\n'
  · subst h3; simp [h1, h2, pStrBody, unescChar]
  by_cases h4 : c = '\r'
  · subst h4; simp [h1, h2, h3, pStrBody, unescChar]
  by_cases h5 : c = '\t'
  · subst h5; simp [h1, h2, h3, h4, pStrBody, unescChar]
  by_cases h6 : c.toNat < 32
  · simp only [if_neg h1, if_neg h2, if_neg h3, if_neg h4, if_neg h5, if_pos h6,
      List.cons_append, List.nil_append]
    rw [pStrBody]
    have hd : hexVal '0' = some 0 := by decide
    rw [hd, hexVal_hexDigitChar (c.toNat / 16) (by omega),
        hexVal_hexDigitChar (c.toNat % 16) (by omega)]
    have harith : ((0 * 16 + 0) * 16 + c.toNat / 16) * 16 + c.toNat % 16 = c.toNat := by
      omega
    show pStrBody (Char.ofNat (((0 * 16 + 0) * 16 + c.toNat / 16) * 16 + c.toNat % 16) :: acc)
        rest = pStrBody (c :: acc) rest
    rw [harith, Char.ofNat_toNat]
  · simp only [if_neg h1, if_neg h2, if_neg h3, if_neg h4, if_neg h5, if_neg h6,
      List.cons_append, List.nil_append]
    rw [pStrBody.eq_def]
    split
    · rename_i heq
      rw [List.cons.injEq] at heq
      exact absurd heq.1 h1
    · rename_i heq
      rw [List.cons.injEq] at heq
      exact absurd heq.1 h2
    · rename_i heq
      rw [List.cons.injEq] at heq
      exact absurd heq.1 h2
    · rename_i c1 r1 heq
      rw [List.cons.injEq] at heq
      rw [heq.1, heq.2]
    · rename_i heq
      exact absurd heq (by simp)

/-- Parsing the escaped rendering of a character run stops at the closing
quote and recovers the run. -/
theorem pStrBody_flat (cs : List Char) : ∀ acc rest,
    pStrBody acc (cs.flatMap escChar ++ '"' :: rest) =
      some (String.mk (acc.reverse ++ cs), rest) := by
  induction cs with
  | nil => intro acc rest; simp [pStrBody]
  | cons c t ih =>
      intro acc rest
      rw [List.flatMap_cons, List.append_assoc, pStrBody_escChar, ih]
      simp

/-- The string codec round-trip. -/
theorem pStr_enc (s : String) (rest : List Char) :
    pStrBody [] (s.data.flatMap escChar ++ '"' :: rest) = some (s, rest) := by
  rw [pStrBody_flat]
  simp

/-- Every value needs at least one unit of fuel. -/
theorem jsize_pos (j : Json) : 1 ≤ jsize j := by
  cases j <;> simp [jsize]

mutual
/-- The fuel a value needs is covered by its serialized length. -/
theorem jsize_le_encLen : ∀ j : Json, jsize j ≤ (encJson j).length
  | .null => by simp [jsize, encJson]
  | .bool b => by cases b <;> simp [jsize, encJson]
  | .num n => by
      have hlen : 1 ≤ (natChars n.natAbs).length :=
        List.length_pos.mpr (natChars_ne_nil n.natAbs)
      by_cases h : n < 0 <;> simp [jsize, encJson, intChars, h] <;> omega
  | .str s => by simp [jsize, encJson, encStr]
  | .arr es => by
      have h := jsizeElems_le_elemsLen es
      simp only [jsize, encJson, List.length_cons, List.length_append]
      simp at h ⊢
      omega
  | .obj fs => by
      have h := jsizeFields_le_fieldsLen fs
      simp only [jsize, encJson, List.length_cons, List.length_append]
      simp at h ⊢
      omega

/-- Element-list fuel versus the length of a leading element list. -/
theorem jsizeElems_le_elemsLen : ∀ es : List Json, jsizeElems es ≤ (encElems es).length + 1
  | [] => by simp [jsizeElems, encElems]
  | v :: vs => by
      have h1 := jsize_le_encLen v
      have h2 := jsizeElems_le_moreLen vs
      simp only [jsizeElems, encElems, List.length_append]
      omega

/-- Element-list fuel versus the length of a comma-prefixed tail. -/
theorem jsizeElems_le_moreLen : ∀ es : List Json, jsizeElems es ≤ (encMoreElems es).length
  | [] => by simp [jsizeElems, encMoreElems]
  | v :: vs => by
      have h1 := jsize_le_encLen v
      have h2 := jsizeElems_le_moreLen vs
      simp only [jsizeElems, encMoreElems, List.length_cons, List.length_append]
      omega

/-- Member-list fuel versus the length of a leading member list. -/
theorem jsizeFields_le_fieldsLen :
    ∀ fs : List (String × Json), jsizeFields fs ≤ (encFields fs).length + 1
  | [] => by simp [jsizeFields, encFields]
  | (k, v) :: fs => by
      have h1 := jsize_le_encLen v
      have h2 := jsizeFields_le_moreLen fs
      simp only [jsizeFields, encFields, List.length_append, List.length_cons]
      omega

/-- Member-list fuel versus the length of a comma-prefixed tail. -/
theorem jsizeFields_le_moreLen :
    ∀ fs : List (String × Json), jsizeFields fs ≤ (encMoreFields fs).length
  | [] => by simp [jsizeFields, encMoreFields]
  | (k, v) :: fs => by
      have h1 := jsize_le_encLen v
      have h2 := jsizeFields_le_moreLen fs
      simp only [jsizeFields, encMoreFields, List.length_cons, List.length_append]
      omega
end

/-- A serialized value starts with a character other than `]` (so the
empty-array fast path of `pVal` never fires on a nonempty array). -/
theorem encJson_head_ne_rbracket (j : Json) : ∃ c t, encJson j = c :: t ∧ c ≠ ']' := by
  cases j with
  | null => exact ⟨'n', _, rfl, by decide⟩
  | bool b =>
      cases b
      · exact ⟨'f', _, rfl, by decide⟩
      · exact ⟨'t', _, rfl, by decide⟩
  | num n =>
      by_cases h : n < 0
      · exact ⟨'-', natChars n.natAbs, by simp [encJson, intChars, h], by decide⟩
      · obtain ⟨c, t, hct⟩ : ∃ c t, natChars n.natAbs = c :: t :=
          List.exists_cons_of_ne_nil (natChars_ne_nil n.natAbs)
        have hc : isDigitCh c = true := natChars_digits _ c (hct ▸ List.mem_cons_self ..)
        refine ⟨c, t, by simp [encJson, intChars, h, hct], ?_⟩
        intro he
        subst he
        exact absurd hc (by decide)
  | str s => exact ⟨'"', _, rfl, by decide⟩
  | arr es => exact ⟨'[', _, rfl, by decide⟩
  | obj fs => exact ⟨'\x7b', _, rfl, by decide⟩

set_option maxHeartbeats 1000000 in
/-- Step lemma: `pVal` on a digit-headed stream dispatches to `pNum`. -/
theorem pVal_digit_head (f : Nat) (c : Char) (t : List Char) (hc : isDigitCh c = true) :
    pVal (f + 1) (c :: t) = (pNum (c :: t)).map (fun p => (.num p.1, p.2)) := by
  rw [pVal.eq_def]
  split
  · rename_i heq
    exact absurd heq (by omega)
  · rename_i fuel hf
    have hf' : fuel = f := by omega
    subst hf'
    split
    all_goals first
      | (rename_i heq
         rw [List.cons.injEq] at heq
         obtain ⟨rfl, -⟩ := heq
         exact absurd hc (by decide))
      | (rename_i heq
         rw [List.cons.injEq] at heq
         obtain ⟨rfl, rfl⟩ := heq
         simp [hc])
      | simp_all

set_option maxHeartbeats 1000000 in
/-- Step lemma: `pVal` on a minus-headed stream dispatches to `pNum`. -/
theorem pVal_dash_head (f : Nat) (t : List Char) :
    pVal (f + 1) ('-' :: t) = (pNum ('-' :: t)).map (fun p => (.num p.1, p.2)) := by
  simp [pVal]

set_option maxHeartbeats 1000000 in
/-- Step lemma: `pVal` after `[` with a non-`]` head dispatches to
`pElems`. -/
theorem pVal_lbracket (f : Nat) (c : Char) (t : List Char) (hc : c ≠ ']') :
    pVal (f + 1) ('[' :: c :: t) = (pElems f (c :: t)).map (fun p => (.arr p.1, p.2)) := by
  rw [pVal.eq_def]
  split
  all_goals simp_all

set_option maxHeartbeats 2000000 in
/-- The parser reads back every serialized value: the value statement, the
element-list statement and the member-list statement, together, by
induction on the fuel. -/
theorem parse_enc_all : ∀ fuel : Nat,
    (∀ j rest, jsize j ≤ fuel → noDigitHead rest = true →
        pVal fuel (encJson j ++ rest) = some (j, rest)) ∧
    (∀ v vs rest, jsizeElems (v :: vs) ≤ fuel →
        pElems fuel (encJson v ++ (encMoreElems vs ++ ']' :: rest)) = some (v :: vs, rest)) ∧
    (∀ k v fs rest, jsizeFields ((k, v) :: fs) ≤ fuel →
        pFields fuel (encStr k ++ ':' :: (encJson v ++ (encMoreFields fs ++ '\x7d' :: rest))) =
          some ((k, v) :: fs, rest)) := by
  intro fuel
  induction fuel with
  | zero =>
      refine ⟨?_, ?_, ?_⟩
      · intro j rest hsz _
        exact absurd hsz (by have := jsize_pos j; omega)
      · intro v vs rest hsz
        exfalso
        have := jsize_pos v
        simp only [jsizeElems] at hsz
        omega
      · intro k v fs rest hsz
        exfalso
        have := jsize_pos v
        simp only [jsizeFields] at hsz
        omega
  | succ f ih =>
      obtain ⟨ihP, ihQ, ihR⟩ := ih
      refine ⟨?_, ?_, ?_⟩
      · -- the value statement
        intro j rest hsz hnd
        cases j with
        | null => simp [encJson, pVal]
        | bool b => cases b <;> simp [encJson, pVal]
        | num n =>
            have hq : pNum (intChars n ++ rest) = some (n, rest) := pNum_intChars n rest hnd
            by_cases h : n < 0
            · have harg : encJson (.num n) ++ rest = '-' :: (natChars n.natAbs ++ rest) := by
                simp [encJson, intChars, h]
              rw [harg, pVal_dash_head]
              rw [show ('-' :: (natChars n.natAbs ++ rest)) = intChars n ++ rest by
                simp [intChars, h]]
              rw [hq]
              rfl
            · obtain ⟨c, t, hct⟩ : ∃ c t, natChars n.natAbs = c :: t :=
                List.exists_cons_of_ne_nil (natChars_ne_nil n.natAbs)
              have hc : isDigitCh c = true := natChars_digits _ c (hct ▸ List.mem_cons_self ..)
              have harg : encJson (.num n) ++ rest = c :: (t ++ rest) := by
                simp [encJson, intChars, h, hct]
              rw [harg, pVal_digit_head f c (t ++ rest) hc]
              rw [show (c :: (t ++ rest)) = intChars n ++ rest by simp [intChars, h, hct]]
              rw [hq]
              rfl
        | str s =>
            have harg : encJson (.str s) ++ rest =
                '"' :: (s.data.flatMap escChar ++ '"' :: rest) := by
              simp [encJson, encStr]
            rw [harg]
            rw [show pVal (f + 1) ('"' :: (s.data.flatMap escChar ++ '"' :: rest)) =
              (pStrBody [] (s.data.flatMap escChar ++ '"' :: rest)).map
                (fun p => (.str p.1, p.2)) by simp [pVal]]
            rw [pStr_enc]
            rfl
        | arr es =>
            cases es with
            | nil => simp [encJson, encElems, pVal]
            | cons v vs =>
                have harg : encJson (.arr (v :: vs)) ++ rest =
                    '[' :: (encJson v ++ (encMoreElems vs ++ ']' :: rest)) := by
                  simp [encJson, encElems]
                rw [harg]
                obtain ⟨c, t, hct, hcne⟩ := encJson_head_ne_rbracket v
                rw [hct, List.cons_append, pVal_lbracket f c _ hcne, ← List.cons_append, ← hct]
                rw [ihQ v vs rest (by simp [jsize] at hsz; omega)]
                rfl
        | obj fs =>
            cases fs with
            | nil => simp [encJson, encFields, pVal]
            | cons kv fs =>
                obtain ⟨k, v⟩ := kv
                have harg : encJson (.obj ((k, v) :: fs)) ++ rest =
                    '\x7b' :: ('"' :: (k.data.flatMap escChar ++ '"' ::
                      (':' :: (encJson v ++ (encMoreFields fs ++ '\x7d' :: rest))))) := by
                  simp [encJson, encFields, encStr]
                rw [harg]
                rw [show pVal (f + 1) ('\x7b' :: ('"' :: (k.data.flatMap escChar ++ '"' ::
                      (':' :: (encJson v ++ (encMoreFields fs ++ '\x7d' :: rest)))))) =
                    (pFields f ('"' :: (k.data.flatMap escChar ++ '"' ::
                      (':' :: (encJson v ++ (encMoreFields fs ++ '\x7d' :: rest)))))).map
                      (fun p => (.obj p.1, p.2)) by simp [pVal]]
                have hfix : ('"' :: (k.data.flatMap escChar ++ '"' ::
                      (':' :: (encJson v ++ (encMoreFields fs ++ '\x7d' :: rest))))) =
                    encStr k ++ ':' :: (encJson v ++ (encMoreFields fs ++ '\x7d' :: rest)) := by
                  simp [encStr]
                rw [hfix, ihR k v fs rest (by simp [jsize] at hsz; omega)]
                rfl
      · -- the element-list statement
        intro v vs rest hsz
        have hnd : noDigitHead (encMoreElems vs ++ ']' :: rest) = true := by
          cases vs with
          | nil => simp [encMoreElems, noDigitHead, isDigitCh]
          | cons w ws => simp [encMoreElems, noDigitHead, isDigitCh]
        have hv := ihP v (encMoreElems vs ++ ']' :: rest)
          (by simp [jsizeElems] at hsz; omega) hnd
        rw [show pElems (f + 1) (encJson v ++ (encMoreElems vs ++ ']' :: rest)) =
          (match pVal f (encJson v ++ (encMoreElems vs ++ ']' :: rest)) with
           | none => none
           | some (v, r) =>
               match r with
               | ',' :: r1 => (pElems f r1).map (fun p => (v :: p.1, p.2))
               | ']' :: r1 => some ([v], r1)
               | _ => none) from by simp [pElems]]
        rw [hv]
        cases vs with
        | nil => simp [encMoreElems]
        | cons w ws =>
            have harg : encMoreElems (w :: ws) ++ ']' :: rest =
                ',' :: (encJson w ++ (encMoreElems ws ++ ']' :: rest)) := by
              simp [encMoreElems]
            rw [harg]
            show (pElems f (encJson w ++ (encMoreElems ws ++ ']' :: rest))).map
                (fun p => (v :: p.1, p.2)) = some (v :: w :: ws, rest)
            rw [ihQ w ws rest (by simp [jsizeElems] at hsz ⊢; omega)]
            rfl
      · -- the member-list statement
        intro k v fs rest hsz
        have hnd : noDigitHead (encMoreFields fs ++ '\x7d' :: rest) = true := by
          cases fs with
          | nil => simp [encMoreFields, noDigitHead, isDigitCh]
          | cons kv fs2 =>
              obtain ⟨k2, v2⟩ := kv
              simp [encMoreFields, noDigitHead, isDigitCh]
        have hv := ihP v (encMoreFields fs ++ '\x7d' :: rest)
          (by simp [jsizeFields] at hsz; omega) hnd
        have harg : encStr k ++ ':' :: (encJson v ++ (encMoreFields fs ++ '\x7d' :: rest)) =
            '"' :: (k.data.flatMap escChar ++ '"' ::
              (':' :: (encJson v ++ (encMoreFields fs ++ '\x7d' :: rest)))) := by
          simp [encStr]
        rw [harg]
        rw [show pFields (f + 1) ('"' :: (k.data.flatMap escChar ++ '"' ::
              (':' :: (encJson v ++ (encMoreFields fs ++ '\x7d' :: rest))))) =
          (match pStrBody [] (k.data.flatMap escChar ++ '"' ::
              (':' :: (encJson v ++ (encMoreFields fs ++ '\x7d' :: rest)))) with
           | none => none
           | some (key, r1) =>
               match r1 with
               | ':' :: r2 =>
                   (match pVal f r2 with
                    | none => none
                    | some (vv, r3) =>
                        match r3 with
                        | ',' :: r4 => (pFields f r4).map (fun p => ((key, vv) :: p.1, p.2))
                        | '\x7d' :: r4 => some ([(key, vv)], r4)
                        | _ => none)
               | _ => none) from by simp [pFields]]
        rw [pStrBody_flat]
        simp only [List.reverse_nil, List.nil_append]
        rw [show (String.mk k.data) = k from rfl]
        rw [hv]
        cases fs with
        | nil => simp [encMoreFields]
        | cons kv fs2 =>
            obtain ⟨k2, v2⟩ := kv
            have harg2 : encMoreFields ((k2, v2) :: fs2) ++ '\x7d' :: rest =
                ',' :: (encStr k2 ++ ':' ::
                  (encJson v2 ++ (encMoreFields fs2 ++ '\x7d' :: rest))) := by
              simp [encMoreFields]
            rw [harg2]
            show (pFields f (encStr k2 ++ ':' ::
                  (encJson v2 ++ (encMoreFields fs2 ++ '\x7d' :: rest)))).map
                (fun p => ((k, v) :: p.1, p.2)) = some ((k, v) :: (k2, v2) :: fs2, rest)
            rw [ihR k2 v2 fs2 rest (by simp [jsizeFields] at hsz ⊢; omega)]
            rfl

/-- The JSON codec round-trip at the document level. -/
theorem jparse_enc (j : Json) : jparse (encJson j) = some j := by
  unfold jparse
  have h := (parse_enc_all ((encJson j).length + 1)).1 j []
    (by have := jsize_le_encLen j; omega) rfl
  rw [List.append_nil] at h
  rw [h]

/-- A line ends at its first newline. -/
theorem readLine_append (l r : List Char) (hl : '\n' ∉ l) :
    readLine (l ++ '\n' :: r) = some (l ++ ['\n'], r) := by
  induction l with
  | nil => simp [readLine]
  | cons c t ih =>
      have hc : ¬ c = '\n' := fun h => hl (by rw [h]; exact List.mem_cons_self _ _)
      have ih2 := ih (fun h => hl (List.mem_cons_of_mem _ h))
      simp [readLine, hc, ih2]

/-- Trimming a CRLF tail off a line that does not itself end in CR or LF. -/
theorem trimCRLF_ends (y : List Char) (c : Char) (hc1 : c ≠ '\r') (hc2 : c ≠ '\n') :
    trimCRLF ((y ++ [c]) ++ ['\r', '\n']) = y ++ [c] := by
  simp [trimCRLF, List.dropWhile, hc1, hc2]

/-- `CutPrefix` recognizes its own prefix. -/
theorem stripPre_self (p cs : List Char) : stripPre p (p ++ cs) = some cs := by
  induction p with
  | nil => rfl
  | cons c t ih => simp [stripPre, ih]

/-- The header loop over exactly the frame the writer produced. -/
theorem readHeaders_frame (L : Nat) (body : List Char) :
    readHeaders none (clKey ++ (natChars L ++ ('\r' :: '\n' :: '\r' :: '\n' :: body))) =
      some (some (L : Int), body) := by
  obtain ⟨pre, hsplit⟩ : ∃ pre, natChars L = pre ++ [Char.ofNat (48 + L % 10)] :=
    ⟨_, natChars_split L⟩
  have hdig : isDigitCh (Char.ofNat (48 + L % 10)) = true :=
    isDigitCh_ofNat (L % 10) (Nat.mod_lt _ (by omega))
  have hline1 : readLine (clKey ++ (natChars L ++ ('\r' :: '\n' :: '\r' :: '\n' :: body))) =
      some ((clKey ++ natChars L ++ ['\r']) ++ ['\n'], '\r' :: '\n' :: body) := by
    have h := readLine_append (clKey ++ natChars L ++ ['\r']) ('\r' :: '\n' :: body) ?_
    · rw [← h]
      congr 1
      simp
    · intro hmem
      rw [List.mem_append, List.mem_append] at hmem
      rcases hmem with (h | h) | h
      · revert h; decide
      · exact absurd (natChars_digits L _ h) (by decide)
      · revert h; decide
  have htrim1 : trimCRLF ((clKey ++ natChars L ++ ['\r']) ++ ['\n']) = clKey ++ natChars L := by
    have h := trimCRLF_ends (clKey ++ pre) (Char.ofNat (48 + L % 10)) ?_ ?_
    · rw [show ((clKey ++ natChars L ++ ['\r']) ++ ['\n'] : List Char) =
        (clKey ++ pre ++ [Char.ofNat (48 + L % 10)]) ++ ['\r', '\n'] by
          rw [hsplit]; simp]
      rw [show ((clKey ++ pre ++ [Char.ofNat (48 + L % 10)] : List Char)) =
        (clKey ++ pre) ++ [Char.ofNat (48 + L % 10)] by simp] at h ⊢
      rw [h, hsplit]
      simp
    · intro he; rw [he] at hdig; exact absurd hdig (by decide)
    · intro he; rw [he] at hdig; exact absurd hdig (by decide)
  rw [readHeaders]
  rw [hline1]
  simp only [htrim1]
  rw [if_neg (by simp [clKey])]
  rw [show (clKey ++ natChars L : List Char) = clKey ++ natChars L from rfl,
    stripPre_self clKey (natChars L)]
  simp only [atoiChars_natChars]
  rw [readHeaders]
  simp [readLine, trimCRLF]

/-- C7: the codec round-trip — decoding an encoded request recovers its
id, method and params (and nothing else is populated), with no residual
input. -/
theorem lspDecode_lspEncodeRequest (id : Int) (method : String) (params : Option Json) :
    lspDecode (lspEncodeRequest ⟨"2.0", id, method, params⟩) =
      some (⟨"2.0", some id, some method, params, none, none⟩, []) := by
  unfold lspEncodeRequest frameChars
  rw [show (clKey ++ natChars (encJson (reqJson ⟨"2.0", id, method, params⟩)).length ++
      ['\r', '\n', '\r', '\n'] ++ encJson (reqJson ⟨"2.0", id, method, params⟩) : List Char) =
    clKey ++ (natChars (encJson (reqJson ⟨"2.0", id, method, params⟩)).length ++
      ('\r' :: '\n' :: '\r' :: '\n' :: encJson (reqJson ⟨"2.0", id, method, params⟩))) by simp]
  unfold lspDecode
  rw [readHeaders_frame]
  simp only [readN, jparse_enc, Int.toNat_natCast, lt_irrefl, if_false,
    List.take_length, List.drop_length,
    show ∀ n : Nat, ¬((n : Int) < 0) from fun n => by omega]
  rw [show decodeRawMsg (reqJson ⟨"2.0", id, method, params⟩) =
    some ⟨"2.0", some id, some method, params, none, none⟩ by cases params <;> rfl]
  rfl

/-! ## The Ppcmd renderer (`internal/rocq/format.go`, `RenderPpcmd`)

Fallible Go behaviour is made explicit: a `strings.Repeat` panic is an
`.error` (with Go's panic message), everything else an `.ok` string. The
quirks of `encoding/json.Unmarshal` the code relies on are modelled
faithfully: unmarshalling `null` into any Go value succeeds and leaves the
zero value, and an ignored unmarshal error leaves the target's previous
(zero) value in place. -/

/-- Go `Unmarshal` of a subdocument into a `string` variable, as the
renderer uses it: `null` succeeds leaving `""`. -/
def asStringGo : Json → Option String
  | .null => some ""
  | .str s => some s
  | _ => none

/-- The `var n int; json.Unmarshal(arr[1], &n)` idiom with the error
ignored: any failure (or `null`) leaves `0`. -/
def goIntOr0 : Json → Int
  | .num k => k
  | _ => 0

/-- The `var parts []string; json.Unmarshal(...)` idiom of `Ppcmd_comment`
with the error ignored: a non-array leaves the nil slice, and within an
array every non-string element is left as its zero value `""` (Go fills
the slice even when it reports an element type error). -/
def commentParts : Json → List String
  | .arr xs => xs.map (fun x => (asStringGo x).getD "")
  | _ => []

/-- The non-recursive tag cases of `RenderPpcmd` (format.go lines
214–255): `Ppcmd_string`, `Ppcmd_print_break` (whose `strings.Repeat`
panics on a negative count), `Ppcmd_force_newline`, `Ppcmd_comment`, and
the catch-all `""` of an unknown tag. The tag comparisons of the Go
switch are mutually exclusive, so factoring them out of the recursion
preserves its order of evaluation. -/
def renderLeafTag (tag : String) (args : List Json) : Except String String :=
  if tag = "Ppcmd_string" then
    match args with
    | [] => .ok ""
    | a1 :: _ => .ok ((asStringGo a1).getD "")
  else if tag = "Ppcmd_print_break" then
    match args with
    | [] => .ok " "
    | a1 :: _ =>
        let n := goIntOr0 a1
        if n < 0 then .error "strings: negative Repeat count"
        else .ok (String.mk (List.replicate n.toNat ' '))
  else if tag = "Ppcmd_force_newline" then .ok "\n"
  else if tag = "Ppcmd_comment" then
    match args with
    | [] => .ok ""
    | a1 :: _ => .ok (String.intercalate " " (commentParts a1))
  else .ok ""

mutual
/-- `RenderPpcmd` (format.go lines 202–263). The result is `.error` when
the Go code panics (`strings.Repeat` with a negative count), `.ok`
otherwise. -/
def renderPpcmd : Json → Except String String
  | .str s => .ok s
  | .null => .ok ""
  | .bool b => .ok (rawText (.bool b))
  | .num n => .ok (rawText (.num n))
  | .obj fs => .ok (rawText (.obj fs))
  | .arr [] => .ok (rawText (.arr []))
  | .arr (a0 :: args) =>
      match asStringGo a0 with
      | none => .ok (rawText (.arr (a0 :: args)))
      | some tag => renderTag tag args

/-- Dispatch on the decoded tag of a `Ppcmd` array. -/
def renderTag (tag : String) (args : List Json) : Except String String :=
  if tag = "Ppcmd_glue" then renderGlueArg args
  else if tag = "Ppcmd_box" then renderContentArg args
  else if tag = "Ppcmd_tag" then renderContentArg args
  else renderLeafTag tag args

/-- The `Ppcmd_glue` argument: a children array (a `null` unmarshals into
the empty slice), anything else renders as `""`. -/
def renderGlueArg : List Json → Except String String
  | [] => .ok ""
  | .arr children :: _ => renderGlue children
  | .null :: _ => renderGlue []
  | _ => .ok ""

/-- The shared `Ppcmd_box`/`Ppcmd_tag` shape: the second array element is
the content to render. -/
def renderContentArg : List Json → Except String String
  | _ :: content :: _ => renderPpcmd content
  | _ => .ok ""

/-- The `Ppcmd_glue` loop: children rendered left to right into one
string; a panic in any child propagates. -/
def renderGlue : List Json → Except String String
  | [] => .ok ""
  | c :: cs =>
      match renderPpcmd c with
      | .error e => .error e
      | .ok s =>
          match renderGlue cs with
          | .error e => .error e
          | .ok r => .ok (s ++ r)
end

/-- `RenderPpcmd` on a `json.RawMessage` that may be nil (a missing
field): Go returns `string(nil) = ""` through the fallback. -/
def renderRawOpt : Option Json → Except String String
  | none => .ok ""
  | some j => renderPpcmd j

/-- A `Ppcmd_print_break` head with a negative count: exactly the shape
on which `strings.Repeat` panics inside `RenderPpcmd`. -/
def badBreakHead : List Json → Bool
  | .str "Ppcmd_print_break" :: a1 :: _ => decide (goIntOr0 a1 < 0)
  | _ => false

mutual
/-- No subterm of the document is a panicking `Ppcmd_print_break`
array. -/
def noNegBreak : Json → Bool
  | .arr xs => !badBreakHead xs && noNegBreakList xs
  | _ => true

/-- `noNegBreak` over a list of children. -/
def noNegBreakList : List Json → Bool
  | [] => true
  | x :: xs => noNegBreak x && noNegBreakList xs
end

/-- Every non-recursive tag case of the renderer succeeds as long as the
head is not a negative `Ppcmd_print_break`. -/
theorem renderLeafTag_ok (tag : String) (a0 : Json) (args : List Json)
    (htag : asStringGo a0 = some tag)
    (hnb : badBreakHead (a0 :: args) = false) :
    ∃ s, renderLeafTag tag args = .ok s := by
  unfold renderLeafTag
  by_cases h1 : tag = "Ppcmd_string"
  · simp only [h1, if_true]
    cases args with
    | nil => exact ⟨_, rfl⟩
    | cons a1 rest => exact ⟨_, rfl⟩
  · simp only [h1, if_false]
    by_cases h2 : tag = "Ppcmd_print_break"
    · simp only [h2, if_true]
      cases args with
      | nil => exact ⟨_, rfl⟩
      | cons a1 rest =>
          have ha0 : a0 = .str "Ppcmd_print_break" := by
            cases a0 <;> simp_all [asStringGo]
          subst ha0
          simp only [badBreakHead, decide_eq_false_iff_not, not_lt] at hnb
          simp only [show ¬(goIntOr0 a1 < 0) from by omega, if_false]
          exact ⟨_, rfl⟩
    · simp only [h2, if_false]
      by_cases h3 : tag = "Ppcmd_force_newline"
      · simp [h3]
      · simp only [h3, if_false]
        by_cases h4 : tag = "Ppcmd_comment"
        · simp only [h4, if_true]
          cases args with
          | nil => exact ⟨_, rfl⟩
          | cons a1 rest => exact ⟨_, rfl⟩
        · simp [h4]

/-- On any document free of negative print breaks, the renderer and the
glue loop succeed; proved by induction on a `jsize` fuel bound. -/
theorem renderOk_fuel : ∀ fuel : Nat,
    (∀ j, jsize j ≤ fuel → noNegBreak j = true → ∃ s, renderPpcmd j = .ok s) ∧
    (∀ cs, jsizeElems cs ≤ fuel → noNegBreakList cs = true →
      ∃ s, renderGlue cs = .ok s) := by
  intro fuel
  induction fuel with
  | zero =>
      constructor
      · intro j hsz _
        exact absurd hsz (by cases j <;> simp [jsize])
      · intro cs hsz _
        match cs with
        | [] => exact ⟨"", by rw [renderGlue.eq_def]⟩
        | c :: rest => exact absurd hsz (by simp [jsizeElems])
  | succ n ih =>
      obtain ⟨ihJ, ihL⟩ := ih
      constructor
      · intro j hsz hnb
        match j with
        | .str s => exact ⟨_, by rw [renderPpcmd.eq_def]⟩
        | .null => exact ⟨_, by rw [renderPpcmd.eq_def]⟩
        | .bool b => exact ⟨_, by rw [renderPpcmd.eq_def]⟩
        | .num m => exact ⟨_, by rw [renderPpcmd.eq_def]⟩
        | .obj fs => exact ⟨_, by rw [renderPpcmd.eq_def]⟩
        | .arr [] => exact ⟨_, by rw [renderPpcmd.eq_def]⟩
        | .arr (a0 :: args) =>
            rw [renderPpcmd.eq_def]
            simp only
            cases hst : asStringGo a0 with
            | none => exact ⟨_, rfl⟩
            | some tag =>
                simp only [noNegBreak, Bool.and_eq_true, Bool.not_eq_true',
                  noNegBreakList] at hnb
                obtain ⟨hbad, hnb0, hnbargs⟩ := hnb
                show ∃ s, renderTag tag args = Except.ok s
                rw [renderTag.eq_def]
                by_cases hg : tag = "Ppcmd_glue"
                · simp only [hg, if_true]
                  rw [renderGlueArg.eq_def]
                  match args with
                  | [] => exact ⟨_, rfl⟩
                  | .arr children :: rest =>
                      simp only
                      have hc : noNegBreakList children = true := by
                        simp only [noNegBreakList, Bool.and_eq_true] at hnbargs
                        have := hnbargs.1
                        simp only [noNegBreak, Bool.and_eq_true] at this
                        exact this.2
                      refine ihL children ?_ hc
                      simp [jsize, jsizeElems] at hsz ⊢
                      omega
                  | .null :: rest =>
                      simp only
                      exact ihL [] (by simp [jsizeElems]) rfl
                  | .bool b :: rest => exact ⟨_, rfl⟩
                  | .num m :: rest => exact ⟨_, rfl⟩
                  | .str s :: rest => exact ⟨_, rfl⟩
                  | .obj fs :: rest => exact ⟨_, rfl⟩
                · simp only [hg, if_false]
                  by_cases hb : tag = "Ppcmd_box"
                  · simp only [hb, if_true]
                    rw [renderContentArg.eq_def]
                    match args with
                    | [] => exact ⟨_, rfl⟩
                    | [x] => exact ⟨_, rfl⟩
                    | x :: content :: rest =>
                        simp only
                        have hc : noNegBreak content = true := by
                          simp only [noNegBreakList, Bool.and_eq_true] at hnbargs
                          exact hnbargs.2.1
                        refine ihJ content ?_ hc
                        simp [jsize, jsizeElems] at hsz ⊢
                        omega
                  · simp only [hb, if_false]
                    by_cases ht : tag = "Ppcmd_tag"
                    · simp only [ht, if_true]
                      rw [renderContentArg.eq_def]
                      match args with
                      | [] => exact ⟨_, rfl⟩
                      | [x] => exact ⟨_, rfl⟩
                      | x :: content :: rest =>
                          simp only
                          have hc : noNegBreak content = true := by
                            simp only [noNegBreakList, Bool.and_eq_true] at hnbargs
                            exact hnbargs.2.1
                          refine ihJ content ?_ hc
                          simp [jsize, jsizeElems] at hsz ⊢
                          omega
                    · simp only [ht, if_false]
                      exact renderLeafTag_ok tag a0 args hst hbad
      · intro cs hsz hnb
        match cs with
        | [] => exact ⟨_, by rw [renderGlue.eq_def]⟩
        | c :: rest =>
            rw [renderGlue.eq_def]
            simp only [noNegBreakList, Bool.and_eq_true] at hnb
            obtain ⟨s1, hs1⟩ := ihJ c (by simp [jsizeElems] at hsz; omega) hnb.1
            obtain ⟨s2, hs2⟩ := ihL rest (by simp [jsizeElems] at hsz; omega) hnb.2
            simp only [hs1, hs2]
            exact ⟨_, rfl⟩

/-- A tag outside the seven recognized `Ppcmd` kinds falls through every
branch of the switch and renders to the empty string. -/
theorem render_unknown_tag (tag : String) (args : List Json)
    (h : tag ∉ (["Ppcmd_string", "Ppcmd_glue", "Ppcmd_box", "Ppcmd_tag",
      "Ppcmd_print_break", "Ppcmd_force_newline", "Ppcmd_comment"] : List String)) :
    renderPpcmd (.arr (.str tag :: args)) = .ok "" := by
  simp only [List.mem_cons, List.not_mem_nil, or_false, not_or] at h
  obtain ⟨h1, h2, h3, h4, h5, h6, h7⟩ := h
  rw [renderPpcmd.eq_def]
  show renderTag tag args = Except.ok ""
  rw [renderTag.eq_def]
  simp only [h2, h3, h4, if_false]
  unfold renderLeafTag
  simp only [h1, h5, h6, h7, if_false]

/-- C8 (counterexample): the renderer does NOT return a string on every
JSON input — a `Ppcmd_print_break` node carrying a negative count makes
`strings.Repeat` panic, modelled here as an `.error` result. -/
theorem render_total_claim_cex :
    renderPpcmd (.arr [.str "Ppcmd_print_break", .num (-1)]) =
      .error "strings: negative Repeat count" := by
  rw [renderPpcmd.eq_def]
  show renderTag "Ppcmd_print_break" [Json.num (-1)] =
    Except.error "strings: negative Repeat count"
  rw [renderTag.eq_def]
  rfl

/-- C8 (amended): on every document with no negative `Ppcmd_print_break`
subterm the renderer terminates with a string, and every tagged-array
node whose head tag is not one of the seven recognized `Ppcmd` kinds
renders to the empty string. -/
theorem render_total_amended :
    (∀ j : Json, noNegBreak j = true → ∃ s, renderPpcmd j = .ok s) ∧
    (∀ (tag : String) (args : List Json),
      tag ∉ (["Ppcmd_string", "Ppcmd_glue", "Ppcmd_box", "Ppcmd_tag",
        "Ppcmd_print_break", "Ppcmd_force_newline", "Ppcmd_comment"] : List String) →
      renderPpcmd (.arr (.str tag :: args)) = .ok "") := by
  constructor
  · intro j hnb
    exact (renderOk_fuel (jsize j)).1 j le_rfl hnb
  · exact render_unknown_tag

/-- Witness for the amended C8 statement at concrete inputs: a
non-negative print break succeeds, and an unrecognized tag renders to
`""`. -/
theorem render_total_amended_witness :
    (∃ s, renderPpcmd (.arr [.str "Ppcmd_print_break", .num (2 : Int)]) = .ok s) ∧
    renderPpcmd (.arr [.str "Ppcmd_custom", .null]) = .ok "" := by
  constructor
  · exact render_total_amended.1 _
      (by simp [noNegBreak, noNegBreakList, badBreakHead, goIntOr0])
  · exact render_total_amended.2 "Ppcmd_custom" [.null] (by decide)

/-! ## The proof-view parser (`internal/rocq/format.go`, `ParseProofView`) -/

/-- One pre-rendered focused goal of a `ProofView`. -/
structure Goal where
  id : String
  text : String
deriving Repr, DecidableEq

/-- The bridge's structured proof snapshot (`ProofView` in the `rocq`
package). The three background counts are list lengths in the code (the
unfocused one clamped at zero), hence naturals, matching the data model's
"non-negative integers". -/
structure ProofView where
  goals : List Goal
  unfocusedCount : Nat
  shelvedCount : Nat
  givenUpCount : Nat
  messages : List String
deriving Repr, DecidableEq

/-- The wire-side goal record (`rawGoal`): `id` and `goal` are raw
subdocuments (`none` when the field is absent, so the nil `RawMessage`),
`hypotheses` a raw list. -/
structure RawGoal where
  id : Option Json
  goal : Option Json
  hypotheses : List Json
deriving Repr

/-- The anonymous unmarshal target of `ParseProofView`. -/
structure RawPV where
  goals : List RawGoal
  shelvedGoals : List RawGoal
  givenUpGoals : List RawGoal
  unfocusedGoals : List RawGoal
  messages : List Json
  ppMessages : List Json
deriving Repr

/-- Go `Unmarshal` of a `[]json.RawMessage` field. -/
def decodeRawList : Option Json → Option (List Json)
  | none => some []
  | some .null => some []
  | some (.arr xs) => some xs
  | some _ => none

/-- Go `Unmarshal` of one `rawGoal`. -/
def decodeRawGoal : Json → Option RawGoal
  | .null => some ⟨none, none, []⟩
  | .obj fs =>
      (match decodeRawList (jLookup fs "hypotheses") with
       | none => none
       | some hyps => some ⟨jLookup fs "id", jLookup fs "goal", hyps⟩)
  | _ => none

/-- Go `Unmarshal` of a `[]rawGoal` field (an element type error fails the
whole top-level unmarshal, which `ParseProofView` checks). -/
def decodeGoalList : Option Json → Option (List RawGoal)
  | none => some []
  | some .null => some []
  | some (.arr xs) => xs.mapM decodeRawGoal
  | some _ => none

/-- Go `Unmarshal` of the whole notification params into the anonymous
struct (format.go lines 126–138). -/
def decodePVRaw : Json → Option RawPV
  | .null => some ⟨[], [], [], [], [], []⟩
  | .obj fs => do
      let pf : List RawGoal × List RawGoal × List RawGoal × List RawGoal ←
        match jLookup fs "proof" with
        | none => some ([], [], [], [])
        | some .null => some ([], [], [], [])
        | some (.obj pfs) => do
            let g ← decodeGoalList (jLookup pfs "goals")
            let s ← decodeGoalList (jLookup pfs "shelvedGoals")
            let gu ← decodeGoalList (jLookup pfs "givenUpGoals")
            let u ← decodeGoalList (jLookup pfs "unfocusedGoals")
            some (g, s, gu, u)
        | some _ => none
      let msgs ← decodeRawList (jLookup fs "messages")
      let pps ← decodeRawList (jLookup fs "pp_messages")
      some ⟨pf.1, pf.2.1, pf.2.2.1, pf.2.2.2, msgs, pps⟩
  | _ => none

/-- `RenderGoalText` (format.go lines 15–23). -/
def renderGoalText (hyps : List String) (conclusion : String) : String :=
  String.join (hyps.map (fun h => "  " ++ h ++ "\n")) ++
    "  ────────────────────\n" ++ ("  " ++ conclusion ++ "\n")

/-- Pre-rendering of one focused goal (format.go lines 153–161).
`String.trim` stands for `strings.TrimSpace` (they agree on the ASCII
whitespace the prover emits). -/
def renderGoal (g : RawGoal) : Except String Goal := do
  let idText := String.trim (match g.id with | none => "" | some j => rawText j)
  let conclusion ← renderRawOpt g.goal
  let hyps ← g.hypotheses.mapM renderPpcmd
  .ok ⟨idText, renderGoalText hyps conclusion⟩

/-- Whether `json.Unmarshal(pair[0], &severity)` succeeds for an `int`
target: a number or `null`. -/
def severityOk : Json → Bool
  | .num _ => true
  | .null => true
  | _ => false

/-- One element of `messages` (format.go lines 163–181): a `[severity,
tree]` pair renders its tree, anything else renders the element itself;
empty renders are dropped. -/
def processMessage (m : Json) : Except String (Option String) :=
  match m with
  | .arr (p0 :: p1 :: _) =>
      if severityOk p0 then do
        let text ← renderPpcmd p1
        .ok (if text = "" then none else some text)
      else do
        let text ← renderPpcmd m
        .ok (if text = "" then none else some text)
  | _ => do
      let text ← renderPpcmd m
      .ok (if text = "" then none else some text)

/-- One element of `pp_messages` (format.go lines 182–191): only
`[severity, tree]` pairs contribute. -/
def processPPMessage (m : Json) : Except String (Option String) :=
  match m with
  | .arr (_ :: p1 :: _) => do
      let text ← renderPpcmd p1
      .ok (if text = "" then none else some text)
  | _ => .ok none

/-- `ParseProofView` (format.go lines 125–193). `.ok none` is Go's `nil`
return on an unmarshal error; `.error` a rendering panic. The unfocused
count is `len(unfocusedGoals) - len(goals)` clamped at zero (`Int.toNat`
performs exactly the code's negative check). -/
def parseProofView (params : Json) : Except String (Option ProofView) :=
  match decodePVRaw params with
  | none => .ok none
  | some raw => do
      let unfocused : Int := (raw.unfocusedGoals.length : Int) - (raw.goals.length : Int)
      let goals ← raw.goals.mapM renderGoal
      let msgs ← raw.messages.mapM processMessage
      let pps ← raw.ppMessages.mapM processPPMessage
      .ok (some
        { goals := goals
          unfocusedCount := unfocused.toNat
          shelvedCount := raw.shelvedGoals.length
          givenUpCount := raw.givenUpGoals.length
          messages := msgs.filterMap id ++ pps.filterMap id })

/-- A successful `Except` `mapM` preserves the list's length. -/
theorem exceptMapM_length {α β : Type} (f : α → Except String β) :
    ∀ (xs : List α) (ys : List β), xs.mapM f = .ok ys → ys.length = xs.length := by
  intro xs
  induction xs with
  | nil =>
      intro ys h
      rw [← List.mapM'_eq_mapM] at h
      simp only [List.mapM'] at h
      cases h
      rfl
  | cons x xs ih =>
      intro ys h
      rw [← List.mapM'_eq_mapM] at h
      simp only [List.mapM'] at h
      cases hfx : f x with
      | error e => simp [hfx, Bind.bind, Except.bind] at h
      | ok b =>
          simp only [hfx, Bind.bind, Except.bind] at h
          cases hrest : xs.mapM' f with
          | error e => simp [hrest, Except.bind] at h
          | ok bs =>
              simp only [hrest, pure, Except.pure, Except.ok.injEq] at h
              subst h
              simp only [List.length_cons]
              rw [ih bs (by rw [← List.mapM'_eq_mapM]; exact hrest)]

/-- C3: whenever `ParseProofView` returns a non-nil `ProofView`, the
params decoded into a raw struct, the pre-rendered goals are in
one-to-one correspondence with the decoded focused goals, and
`unfocusedCount` equals `max 0 (B - F)` where `B` is the length of the
reported `unfocusedGoals` array and `F` the number of focused goals — in
particular it is never negative. -/
theorem parse_unfocused_clamped (params : Json) (pv : ProofView)
    (h : parseProofView params = .ok (some pv)) :
    ∃ raw, decodePVRaw params = some raw ∧
      pv.goals.length = raw.goals.length ∧
      (pv.unfocusedCount : Int) =
        max 0 ((raw.unfocusedGoals.length : Int) - (raw.goals.length : Int)) := by
  unfold parseProofView at h
  cases hraw : decodePVRaw params with
  | none => rw [hraw] at h; cases h
  | some raw =>
      rw [hraw] at h
      have h2 : (raw.goals.mapM renderGoal >>= fun goals =>
          raw.messages.mapM processMessage >>= fun msgs =>
          raw.ppMessages.mapM processPPMessage >>= fun pps =>
          Except.ok (some
            { goals := goals
              unfocusedCount := ((raw.unfocusedGoals.length : Int) -
                (raw.goals.length : Int)).toNat
              shelvedCount := raw.shelvedGoals.length
              givenUpCount := raw.givenUpGoals.length
              messages := msgs.filterMap id ++ pps.filterMap id })) =
          .ok (some pv) := h
      refine ⟨raw, rfl, ?_⟩
      cases hg : raw.goals.mapM renderGoal with
      | error e => rw [hg] at h2; simp [Bind.bind, Except.bind] at h2
      | ok goals =>
          rw [hg] at h2
          simp only [Bind.bind, Except.bind] at h2
          cases hm : raw.messages.mapM processMessage with
          | error e => rw [hm] at h2; simp at h2
          | ok msgs =>
              rw [hm] at h2
              cases hp : raw.ppMessages.mapM processPPMessage with
              | error e => rw [hp] at h2; simp at h2
              | ok pps =>
                  rw [hp] at h2
                  simp only [Except.ok.injEq, Option.some.injEq] at h2
                  subst h2
                  refine ⟨exceptMapM_length renderGoal raw.goals goals hg, ?_⟩
                  show ((((raw.unfocusedGoals.length : Int) -
                    (raw.goals.length : Int)).toNat : Int)) =
                    max 0 ((raw.unfocusedGoals.length : Int) - (raw.goals.length : Int))
                  rw [Int.toNat_eq_max, max_comm]

/-- Witness for C3 at a concrete payload: two background subgoals, no
focused goals. -/
theorem parse_unfocused_clamped_witness :
    ∃ raw, decodePVRaw
        (.obj [("proof", .obj [("unfocusedGoals", .arr [.null, .null])])]) = some raw ∧
      (⟨[], 2, 0, 0, []⟩ : ProofView).goals.length = raw.goals.length ∧
      ((⟨[], 2, 0, 0, []⟩ : ProofView).unfocusedCount : Int) =
        max 0 ((raw.unfocusedGoals.length : Int) - (raw.goals.length : Int)) :=
  parse_unfocused_clamped _ _ rfl

/-! ## The text formatters (`internal/rocq/format.go` lines 14–122) -/

/-- `WriteGoals`' loop over two or more goals (or zero). -/
def writeGoalsAux (total : Nat) : Nat → List Goal → String
  | _, [] => ""
  | i, g :: gs =>
      (if i > 0 then "\n" else "") ++
        "Goal " ++ toString (i + 1) ++ " of " ++ toString total ++ ":\n" ++ g.text ++
        writeGoalsAux total (i + 1) gs

/-- `WriteGoals` (format.go lines 26–39). -/
def writeGoals (goals : List Goal) : String :=
  match goals with
  | [g] => "Goal:\n" ++ g.text
  | gs => writeGoalsAux gs.length 0 gs

/-- Model of `strings.Join(parts, ", ")`. -/
def joinComma : List String → String
  | [] => ""
  | [x] => x
  | x :: rest => x ++ ", " ++ joinComma rest

/-- `FormatBackgroundCounts` (format.go lines 43–58). -/
def formatBackgroundCounts (pv : ProofView) : String :=
  let parts : List String :=
    (if pv.unfocusedCount > 0 then [toString pv.unfocusedCount ++ " unfocused"] else []) ++
    (if pv.shelvedCount > 0 then [toString pv.shelvedCount ++ " shelved"] else []) ++
    (if pv.givenUpCount > 0 then [toString pv.givenUpCount ++ " given up"] else [])
  if parts = [] then "" else joinComma parts

/-- An LSP position (zero-indexed, Go `int` fields). -/
structure Position where
  line : Int
  character : Int
deriving Repr, DecidableEq

/-- An LSP range; `stop` is Go's `End` field (a Lean keyword). -/
structure Range where
  start : Position
  stop : Position
deriving Repr, DecidableEq

/-- An LSP diagnostic. -/
structure Diagnostic where
  range : Range
  severity : Int
  message : String
deriving Repr, DecidableEq

/-- The severity word of `FormatDiagnostics`' switch (default `"info"`). -/
def severityName (s : Int) : String :=
  if s = 1 then "error"
  else if s = 2 then "warning"
  else if s = 3 then "info"
  else if s = 4 then "hint"
  else "info"

/-- One line of diagnostic output: the format verb
`"[%s] line %d:%d–%d:%d: %s\n"` applied to severity word, start line + 1,
start character, end line + 1, end character, message. -/
def renderDiag (d : Diagnostic) : String :=
  "[" ++ severityName d.severity ++ "] line " ++
    toString (d.range.start.line + 1) ++ ":" ++ toString d.range.start.character ++ "–" ++
    toString (d.range.stop.line + 1) ++ ":" ++ toString d.range.stop.character ++ ": " ++
    d.message ++ "\n"

/-- `FormatDiagnostics` (format.go lines 100–122), as the string it
appends to the builder. -/
def formatDiagnosticsStr (diags : List Diagnostic) : String :=
  if diags = [] then ""
  else "\n=== Diagnostics ===\n" ++ String.join (diags.map renderDiag)

/-- `FormatFullResults` (format.go lines 61–97), as the text payload of
the returned tool result. -/
def formatFullResults (pv? : Option ProofView) (diags : List Diagnostic) : String :=
  let goalPart :=
    match pv? with
    | none => ""
    | some pv =>
        let bg := formatBackgroundCounts pv
        (if pv.goals = [] then
          (if bg = "" then "Proof complete!\n"
           else "No focused goals. " ++ bg ++ " remaining.\n")
         else "") ++
        (if pv.goals ≠ [] then
          writeGoals pv.goals ++ (if bg ≠ "" then "\n(+ " ++ bg ++ ")\n" else "")
         else "")
  let msgPart :=
    match pv? with
    | none => ""
    | some pv =>
        if pv.messages ≠ [] then
          "\n=== Messages ===\n" ++ String.join (pv.messages.map (fun m => m ++ "\n"))
        else ""
  let out := goalPart ++ msgPart ++ formatDiagnosticsStr diags
  if out = "" then "No goals or diagnostics." else out

/-! ## The document registry (`state.go`)

`openDoc`, `syncDoc` and `closeDoc` mutate `sm.docs` (a map keyed by URI)
under `sm.mu`. The environment each call touches — the lazy client start,
the `os.ReadFile` result, the success of the notify write — is passed in
as oracle data on the operation, so a trace of operations determines the
registry deterministically. -/

/-- The per-document fields the registry claims concern. -/
structure DocMeta where
  version : Nat
  content : String
deriving Repr, DecidableEq

/-- `fileURI` (state.go lines 80–86); `filepath.Abs` is the identity on
the absolute paths the registry claims quantify over. -/
def fileURI (path : String) : String :=
  "file://" ++ path

/-- Lookup in the registry map. -/
def regLookup : List (String × DocMeta) → String → Option DocMeta
  | [], _ => none
  | (k, v) :: rest, key => if k = key then some v else regLookup rest key

/-- Pointwise update of the registry map. -/
def regUpdate : List (String × DocMeta) → String → DocMeta → List (String × DocMeta)
  | [], _, _ => []
  | (k, v) :: rest, key, nv =>
      if k = key then (k, nv) :: regUpdate rest key nv
      else (k, v) :: regUpdate rest key nv

/-- Map deletion (`delete(sm.docs, uri)`). -/
def regRemove : List (String × DocMeta) → String → List (String × DocMeta)
  | [], _ => []
  | (k, v) :: rest, key =>
      if k = key then regRemove rest key else (k, v) :: regRemove rest key

/-- What a document-registry call returns. -/
inductive OpResult where
  | ok
  | errClientStart
  | errAlreadyOpen
  | errIo
  | errNotOpen
  | errNotify
deriving Repr, DecidableEq

/-- One registry call with its environment oracles: whether the lazy
client start succeeds, what `os.ReadFile` returns, whether the notify
write succeeds. -/
inductive DocOp where
  | openD (path : String) (clientOk : Bool) (readResult : Option String) (notifyOk : Bool)
  | syncD (path : String) (readResult : Option String) (notifyOk : Bool)
  | closeD (path : String) (notifyOk : Bool)
deriving Repr, DecidableEq

/-- `openDoc` (state.go lines 89–125): already-open check, file read,
registration with `version = 1`, then the didOpen notify — whose failure
is returned only after the document is registered. -/
def openDocStep (reg : List (String × DocMeta)) (path : String) (clientOk : Bool)
    (readResult : Option String) (notifyOk : Bool) : List (String × DocMeta) × OpResult :=
  if ¬clientOk then (reg, .errClientStart)
  else if (regLookup reg (fileURI path)).isSome then (reg, .errAlreadyOpen)
  else
    match readResult with
    | none => (reg, .errIo)
    | some content =>
        ((fileURI path, ⟨1, content⟩) :: reg, if notifyOk then .ok else .errNotify)

/-- `syncDoc` (state.go lines 149–177): lookup, re-read, `Version++`, then
the didChange notify — whose failure is returned after the increment. -/
def syncDocStep (reg : List (String × DocMeta)) (path : String)
    (readResult : Option String) (notifyOk : Bool) : List (String × DocMeta) × OpResult :=
  match regLookup reg (fileURI path) with
  | none => (reg, .errNotOpen)
  | some doc =>
      match readResult with
      | none => (reg, .errIo)
      | some content =>
          (regUpdate reg (fileURI path) ⟨doc.version + 1, content⟩,
            if notifyOk then .ok else .errNotify)

/-- `closeDoc` (state.go lines 128–146): lookup, the didClose notify, then
the unconditional `delete` — the entry goes away whether or not the notify
failed, and the notify's error is what the call returns. -/
def closeDocStep (reg : List (String × DocMeta)) (path : String) (notifyOk : Bool) :
    List (String × DocMeta) × OpResult :=
  match regLookup reg (fileURI path) with
  | none => (reg, .errNotOpen)
  | some _ =>
      (regRemove reg (fileURI path), if notifyOk then .ok else .errNotify)

/-- Dispatch one registry call. -/
def docStep (reg : List (String × DocMeta)) : DocOp → List (String × DocMeta) × OpResult
  | .openD p c r n => openDocStep reg p c r n
  | .syncD p r n => syncDocStep reg p r n
  | .closeD p n => closeDocStep reg p n

/-- Run a trace of registry calls. -/
def runOps (reg : List (String × DocMeta)) : List DocOp → List (String × DocMeta)
  | [] => reg
  | op :: rest => runOps (docStep reg op).1 rest

/-- Whether an operation is a close of the given URI. -/
def isCloseOf (uri : String) : DocOp → Bool
  | .closeD p _ => fileURI p = uri
  | _ => false

/-- Whether one operation is a version-incrementing sync of the URI: a
`syncDoc` whose file re-read succeeded (it increments the version whether
or not its notify then fails). -/
def syncIncOf (uri : String) : DocOp → Nat
  | .syncD p (some _) _ => if fileURI p = uri then 1 else 0
  | _ => 0

/-- The number of version-incrementing syncs of the URI in a trace. -/
def countIncSyncs (uri : String) : List DocOp → Nat
  | [] => 0
  | op :: rest => syncIncOf uri op + countIncSyncs uri rest

/-! ## The collector loop (`proof.go`, `WaitNotifications` and
`collectResultsFull` / `collectResultsDelta`)

The `select` nondeterminism is resolved by an explicit arrival trace: each
entry is a proof-view delivery, a diagnostics delivery (possibly the nil
slice — `publishDiagnostics` forwards whatever `p.Diagnostics` held), or
the timer firing. An exhausted trace stands for the timer firing with
nothing further on the channels. -/

/-- One arrival the `select` can observe. -/
inductive Arrival where
  | pv (v : ProofView)
  | dg (d : Option (List Diagnostic))
  | timeout
deriving Repr, DecidableEq

/-- The collector loop (proof.go `WaitNotifications`): while a gate is
still down, take the next arrival; record it and raise its gate, or stop
on the timer. -/
def waitLoop (gotPV gotDG : Bool) (pvA : Option ProofView) (dgA : Option (List Diagnostic)) :
    List Arrival → Option ProofView × Option (List Diagnostic)
  | [] => (pvA, dgA)
  | ev :: rest =>
      if gotPV ∧ gotDG then (pvA, dgA)
      else
        match ev with
        | .timeout => (pvA, dgA)
        | .pv v => waitLoop true gotDG (some v) dgA rest
        | .dg d => waitLoop gotPV true pvA d rest

/-- `WaitNotifications` from the initial state (`var pv *ProofView`,
`var diags []Diagnostic`, both gates down). -/
def waitNotifications (evs : List Arrival) : Option ProofView × Option (List Diagnostic) :=
  waitLoop false false none none evs

/-- The cached fields `collectResultsFull` / `collectResultsDelta` may
write (`DocState.ProofView`, `.PrevProofView`, `.Diagnostics`; a `none`
diagnostics field is Go's nil slice). -/
structure CollectDoc where
  proofView : Option ProofView
  prevProofView : Option ProofView
  diagnostics : Option (List Diagnostic)
deriving Repr, DecidableEq

/-- The state update shared verbatim by `collectResultsFull` (format.go
lines 396–407) and `collectResultsDelta`: `PrevProofView` is overwritten
unconditionally, `ProofView` and `Diagnostics` only behind the two nil
checks. (The formatted reply the two variants differ in does not touch
the document.) -/
def applyCollect (doc : CollectDoc)
    (res : Option ProofView × Option (List Diagnostic)) : CollectDoc :=
  { prevProofView := res.1
    proofView := match res.1 with | some v => some v | none => doc.proofView
    diagnostics := match res.2 with | some d => some d | none => doc.diagnostics }

/-- The document-state effect of one full collect. -/
def collectState (doc : CollectDoc) (evs : List Arrival) : CollectDoc :=
  applyCollect doc (waitNotifications evs)

/-- Whether a trace contains a proof-view arrival. -/
def hasPvArrival : List Arrival → Bool
  | [] => false
  | .pv _ :: _ => true
  | _ :: rest => hasPvArrival rest

/-- Whether a trace contains a diagnostics arrival. -/
def hasDgArrival : List Arrival → Bool
  | [] => false
  | .dg _ :: _ => true
  | _ :: rest => hasDgArrival rest

/-! ## Claim theorems -/

/-- C1 (counterexample): with one request pending (sink id 1 waiting), the
reader task hits a decode error and terminates; afterwards the sink is
still in the pending map and no sink has been closed, and a `request`
issued after the termination whose marshal and write both succeed blocks
forever instead of failing immediately — refuting both halves of the
claim at this concrete state. -/
theorem reader_death_claim_cex :
    (1 ∈ (runReader ⟨[1], [], []⟩ [.decodeError]).waiting ∧
      (runReader ⟨[1], [], []⟩ [.decodeError]).closedSinks = []) ∧
    requestWithDeadReader true true = .blockedForever := by
  decide

/-- No iteration of `readLoop` closes a sink. -/
theorem runReader_closedSinks (msgs : List InMsg) :
    ∀ st : ClientPending, (runReader st msgs).closedSinks = st.closedSinks := by
  induction msgs with
  | nil => intro st; rfl
  | cons m rest ih =>
      intro st
      cases m with
      | decodeError => rfl
      | response id =>
          show (runReader (readStep st (.response id)) rest).closedSinks = st.closedSinks
          rw [ih (readStep st (.response id))]
          unfold readStep
          by_cases h : id ∈ st.waiting <;> simp [h]
      | serverRequest =>
          show (runReader (readStep st .serverRequest) rest).closedSinks = st.closedSinks
          exact ih _
      | notification known =>
          show (runReader (readStep st (.notification known)) rest).closedSinks = st.closedSinks
          exact ih _

/-- C1 (amended): when the reader task terminates on a decode error it
leaves the whole pending-sink state exactly as it was — no sink is ever
closed by any reader activity — so waiters blocked at that moment stay
blocked; and a `request` issued after the termination returns an error
exactly when its params marshal or its frame write fails, and otherwise
blocks forever (nothing can ever deliver into its sink). -/
theorem reader_death_amended :
    (∀ (st : ClientPending) (msgs : List InMsg),
        (runReader st msgs).closedSinks = st.closedSinks) ∧
    (∀ (st : ClientPending) (rest : List InMsg), runReader st (.decodeError :: rest) = st) ∧
    (∀ marshalOk encodeOk : Bool,
        requestWithDeadReader marshalOk encodeOk =
          if marshalOk ∧ encodeOk then .blockedForever else .errReturn) := by
  refine ⟨fun st msgs => runReader_closedSinks msgs st, fun st rest => rfl, ?_⟩
  decide

/-- C2 (counterexample): in the superseded client variant cited by the
claim (part_004 lines 90–106), the all-success execution writes the
request frame at trace index 1 while no sink registration occurs at any
earlier index — `codec.sendRequest` writes the frame before `request`
inserts the channel into `pending`, refuting "never writes the request
before registering its sink" over that implementation. -/
theorem request_order_claim_cex :
    (requestTraceV0 true true true).get ⟨1, by decide⟩ = .writeFrame ∧
    ∀ j : Fin (requestTraceV0 true true true).length,
      (j : Nat) < 1 → (requestTraceV0 true true true).get j ≠ .registerSink := by
  decide

/-- C2 (amended): the claim holds of the current client only. In every
execution of the current `request` (part_003 lines 142–180) — over all
combinations of params presence, marshal success and write success — any
write of the request frame is preceded in the event trace by the
registration of the pending sink. In the superseded variant (part_004
lines 90–106) the order is reversed: any registration of the sink is
preceded by the write of the request frame, so every call of that
variant that registers at all has already written. -/
theorem request_order_amended :
    (∀ hasParams marshalOk encodeOk : Bool,
      ∀ i : Fin (requestTrace hasParams marshalOk encodeOk).length,
        (requestTrace hasParams marshalOk encodeOk).get i = .writeFrame →
        ∃ j : Fin (requestTrace hasParams marshalOk encodeOk).length,
          (j : Nat) < (i : Nat) ∧
          (requestTrace hasParams marshalOk encodeOk).get j = .registerSink) ∧
    (∀ hasParams marshalOk encodeOk : Bool,
      ∀ i : Fin (requestTraceV0 hasParams marshalOk encodeOk).length,
        (requestTraceV0 hasParams marshalOk encodeOk).get i = .registerSink →
        ∃ j : Fin (requestTraceV0 hasParams marshalOk encodeOk).length,
          (j : Nat) < (i : Nat) ∧
          (requestTraceV0 hasParams marshalOk encodeOk).get j = .writeFrame) := by
  constructor <;> decide

/-- C2 (witness): in the all-success executions the current client writes
at index 2 with the registration produced earlier, and the superseded
variant registers at index 2 with the write produced earlier. -/
theorem request_order_amended_witness :
    ((requestTrace true true true).get ⟨2, by decide⟩ = .writeFrame ∧
      ∃ j : Fin (requestTrace true true true).length,
        (j : Nat) < 2 ∧ (requestTrace true true true).get j = .registerSink) ∧
    ((requestTraceV0 true true true).get ⟨2, by decide⟩ = .registerSink ∧
      ∃ j : Fin (requestTraceV0 true true true).length,
        (j : Nat) < 2 ∧ (requestTraceV0 true true true).get j = .writeFrame) := by
  refine ⟨⟨by decide, ?_⟩, ⟨by decide, ?_⟩⟩
  · exact request_order_amended.1 true true true ⟨2, by decide⟩ (by decide)
  · exact request_order_amended.2 true true true ⟨2, by decide⟩ (by decide)

/-- Updating one key leaves other keys' bindings alone. -/
theorem regLookup_update_ne (reg : List (String × DocMeta)) (key uri : String)
    (nv : DocMeta) (h : key ≠ uri) :
    regLookup (regUpdate reg key nv) uri = regLookup reg uri := by
  induction reg with
  | nil => rfl
  | cons kv rest ih =>
      obtain ⟨k, v⟩ := kv
      by_cases hk : k = key
      · subst hk
        simp [regUpdate, regLookup, h, ih]
      · by_cases hu : k = uri
        · subst hu
          simp [regUpdate, regLookup, hk, Ne.symm h, ih]
        · simp [regUpdate, regLookup, hk, hu, ih]

/-- Updating a bound key rebinds it. -/
theorem regLookup_update_self (reg : List (String × DocMeta)) (uri : String)
    (nv : DocMeta) (d : DocMeta) (h : regLookup reg uri = some d) :
    regLookup (regUpdate reg uri nv) uri = some nv := by
  induction reg with
  | nil => simp [regLookup] at h
  | cons kv rest ih =>
      obtain ⟨k, v⟩ := kv
      by_cases hk : k = uri
      · subst hk
        simp [regUpdate, regLookup]
      · simp only [regLookup, if_neg hk] at h
        simp [regUpdate, regLookup, hk, ih h]

/-- Deletion removes the binding. -/
theorem regLookup_remove_self (reg : List (String × DocMeta)) (uri : String) :
    regLookup (regRemove reg uri) uri = none := by
  induction reg with
  | nil => rfl
  | cons kv rest ih =>
      obtain ⟨k, v⟩ := kv
      by_cases hk : k = uri
      · simpa [regRemove, hk] using ih
      · simpa [regRemove, regLookup, hk] using ih

/-- Deletion leaves other keys' bindings alone. -/
theorem regLookup_remove_ne (reg : List (String × DocMeta)) (key uri : String)
    (h : key ≠ uri) :
    regLookup (regRemove reg key) uri = regLookup reg uri := by
  induction reg with
  | nil => rfl
  | cons kv rest ih =>
      obtain ⟨k, v⟩ := kv
      by_cases hk : k = key
      · subst hk
        simp [regRemove, regLookup, h, ih]
      · by_cases hu : k = uri
        · subst hu
          simp [regRemove, regLookup, hk, Ne.symm h, ih]
        · simp [regRemove, regLookup, hk, hu, ih]

/-- One non-closing step preserves an open document's binding and bumps
its version exactly on a read-succeeding sync of that document. -/
theorem docStep_version (reg : List (String × DocMeta)) (op : DocOp) (uri : String)
    (d : DocMeta) (hd : regLookup reg uri = some d) (hnc : isCloseOf uri op = false) :
    ∃ d' : DocMeta, regLookup (docStep reg op).1 uri = some d' ∧
      d'.version = d.version + syncIncOf uri op := by
  cases op with
  | openD p c r n =>
      refine ⟨d, ?_, rfl⟩
      show regLookup (openDocStep reg p c r n).1 uri = some d
      unfold openDocStep
      cases c with
      | false => exact hd
      | true =>
          rw [if_neg (by simp)]
          by_cases hopen : (regLookup reg (fileURI p)).isSome
          · rw [if_pos hopen]
            exact hd
          · rw [if_neg hopen]
            cases r with
            | none => exact hd
            | some content =>
                have hne : fileURI p ≠ uri := by
                  intro he
                  rw [he, hd] at hopen
                  simp at hopen
                show regLookup ((fileURI p, ⟨1, content⟩) :: reg) uri = some d
                simp [regLookup, hne, hd]
  | syncD p r n =>
      have hinc0 : fileURI p ≠ uri → syncIncOf uri (.syncD p r n) = 0 := by
        intro hp
        cases r <;> simp [syncIncOf, hp]
      by_cases hp : fileURI p = uri
      · cases r with
        | none =>
            refine ⟨d, ?_, rfl⟩
            show regLookup (syncDocStep reg p none n).1 uri = some d
            unfold syncDocStep
            rw [hp, hd]
            exact hd
        | some content =>
            refine ⟨⟨d.version + 1, content⟩, ?_, by simp [syncIncOf, hp]⟩
            show regLookup (syncDocStep reg p (some content) n).1 uri =
              some ⟨d.version + 1, content⟩
            unfold syncDocStep
            rw [hp, hd]
            show regLookup (regUpdate reg uri ⟨d.version + 1, content⟩) uri =
              some ⟨d.version + 1, content⟩
            exact regLookup_update_self reg uri _ d hd
      · cases hl : regLookup reg (fileURI p) with
        | none =>
            refine ⟨d, ?_, by rw [hinc0 hp]; omega⟩
            show regLookup (syncDocStep reg p r n).1 uri = some d
            unfold syncDocStep
            rw [hl]
            exact hd
        | some doc =>
            cases r with
            | none =>
                refine ⟨d, ?_, by simp [syncIncOf, hp]⟩
                show regLookup (syncDocStep reg p none n).1 uri = some d
                unfold syncDocStep
                rw [hl]
                exact hd
            | some content =>
                refine ⟨d, ?_, by simp [syncIncOf, hp]⟩
                show regLookup (syncDocStep reg p (some content) n).1 uri = some d
                unfold syncDocStep
                rw [hl]
                show regLookup (regUpdate reg (fileURI p) ⟨doc.version + 1, content⟩) uri =
                  some d
                rw [regLookup_update_ne reg (fileURI p) uri _ hp]
                exact hd
  | closeD p n =>
      have hp : fileURI p ≠ uri := by
        intro he
        rw [isCloseOf, he] at hnc
        simp at hnc
      cases hl : regLookup reg (fileURI p) with
      | none =>
          refine ⟨d, ?_, rfl⟩
          show regLookup (closeDocStep reg p n).1 uri = some d
          unfold closeDocStep
          rw [hl]
          exact hd
      | some doc =>
          refine ⟨d, ?_, rfl⟩
          show regLookup (closeDocStep reg p n).1 uri = some d
          unfold closeDocStep
          rw [hl]
          show regLookup (regRemove reg (fileURI p)) uri = some d
          rw [regLookup_remove_ne reg (fileURI p) uri hp]
          exact hd

/-- Over a whole trace without a close of the document, the version grows
by exactly the number of read-succeeding syncs. -/
theorem runOps_version (ops : List DocOp) :
    ∀ (reg : List (String × DocMeta)) (uri : String) (d : DocMeta),
      regLookup reg uri = some d → (∀ op ∈ ops, isCloseOf uri op = false) →
      ∃ d' : DocMeta, regLookup (runOps reg ops) uri = some d' ∧
        d'.version = d.version + countIncSyncs uri ops := by
  induction ops with
  | nil => intro reg uri d hd _; exact ⟨d, hd, by simp [countIncSyncs]⟩
  | cons op rest ih =>
      intro reg uri d hd hnc
      obtain ⟨d1, hd1, hv1⟩ :=
        docStep_version reg op uri d hd (hnc op (List.mem_cons_self ..))
      obtain ⟨d2, hd2, hv2⟩ := ih (docStep reg op).1 uri d1 hd1
        (fun o ho => hnc o (List.mem_cons_of_mem _ ho))
      refine ⟨d2, hd2, ?_⟩
      rw [hv2, hv1]
      show d.version + syncIncOf uri op + countIncSyncs uri rest =
        d.version + (syncIncOf uri op + countIncSyncs uri rest)
      omega

/-- C6 (counterexample): open a document (all environment oracles
succeeding), then issue one `syncDoc` whose file re-read succeeds but
whose didChange notify fails. The call returns an error — it is not a
successful `syncDoc` — yet the document's version is 2, where the claim
(`1 + k` after `k = 0` successful syncs) demands 1. -/
theorem doc_version_claim_cex :
    (docStep (docStep [] (.openD "a" true (some "x") true)).1
        (.syncD "a" (some "y") false)).2 = .errNotify ∧
    regLookup (docStep (docStep [] (.openD "a" true (some "x") true)).1
        (.syncD "a" (some "y") false)).1 (fileURI "a") = some ⟨2, "y"⟩ := by
  decide

/-- C6 (amended): a successful registration by `openDoc` sets the version
to 1 (even when the subsequent didOpen notify fails, the document is
registered at version 1); and over any later trace of operations in which
the document is not closed, its version equals its starting version plus
the number of `syncDoc` calls on it whose file re-read succeeded — a
`syncDoc` that re-reads the file but fails to send didChange still
increments the version although the call returns an error. In particular
the version never decreases. -/
theorem doc_version_amended :
    (∀ (reg : List (String × DocMeta)) (p content : String) (nOk : Bool),
        regLookup reg (fileURI p) = none →
        regLookup ((docStep reg (.openD p true (some content) nOk)).1) (fileURI p) =
          some ⟨1, content⟩) ∧
    (∀ (ops : List DocOp) (reg : List (String × DocMeta)) (uri : String) (d : DocMeta),
        regLookup reg uri = some d → (∀ op ∈ ops, isCloseOf uri op = false) →
        ∃ d' : DocMeta, regLookup (runOps reg ops) uri = some d' ∧
          d'.version = d.version + countIncSyncs uri ops) := by
  constructor
  · intro reg p content nOk hnone
    unfold docStep openDocStep
    simp [hnone, regLookup]
  · exact fun ops => runOps_version ops

/-- C6 (witness): a freshly opened document, two syncs with successful
re-reads (the second one failing its notify), ends at version 1 + 2. -/
theorem doc_version_amended_witness :
    regLookup ([(fileURI "a", ⟨1, "x"⟩)] : List (String × DocMeta)) (fileURI "a") =
        some ⟨1, "x"⟩ ∧
    (∀ op ∈ ([.syncD "a" (some "y") true, .syncD "a" (some "z") false] : List DocOp),
        isCloseOf (fileURI "a") op = false) ∧
    ∃ d' : DocMeta,
      regLookup (runOps [(fileURI "a", ⟨1, "x"⟩)]
          [.syncD "a" (some "y") true, .syncD "a" (some "z") false]) (fileURI "a") =
        some d' ∧
      d'.version = 1 + countIncSyncs (fileURI "a")
        [.syncD "a" (some "y") true, .syncD "a" (some "z") false] := by
  refine ⟨by decide, by decide, ?_⟩
  exact doc_version_amended.2 [.syncD "a" (some "y") true, .syncD "a" (some "z") false]
    [(fileURI "a", ⟨1, "x"⟩)] (fileURI "a") ⟨1, "x"⟩ (by decide) (by decide)

/-- C9: when a document is open, `closeDoc` deletes its registry entry
whether or not the didClose notify succeeds (returning the notify's
error), and a subsequent `openDoc` of the same path never fails with the
already-open error — with the client up and the file readable it registers
the document afresh. -/
theorem closeDoc_removes_unconditionally
    (reg : List (String × DocMeta)) (path : String) (d : DocMeta) (notifyOk : Bool)
    (hopen : regLookup reg (fileURI path) = some d) :
    regLookup ((docStep reg (.closeD path notifyOk)).1) (fileURI path) = none ∧
    (docStep reg (.closeD path notifyOk)).2 = (if notifyOk then .ok else .errNotify) ∧
    (∀ (content : String) (nOk2 : Bool),
        (docStep ((docStep reg (.closeD path notifyOk)).1)
            (.openD path true (some content) nOk2)).2 ≠ .errAlreadyOpen) := by
  have hstep : docStep reg (.closeD path notifyOk) =
      (regRemove reg (fileURI path), if notifyOk then .ok else .errNotify) := by
    show closeDocStep reg path notifyOk = _
    unfold closeDocStep
    rw [hopen]
  rw [hstep]
  refine ⟨regLookup_remove_self reg (fileURI path), rfl, ?_⟩
  intro content nOk2
  show (openDocStep (regRemove reg (fileURI path)) path true (some content) nOk2).2 ≠
    .errAlreadyOpen
  unfold openDocStep
  rw [regLookup_remove_self reg (fileURI path)]
  cases nOk2 <;> simp

/-- C9 (witness): closing an open document with a failing notify, then
reopening it, at a concrete registry. -/
theorem closeDoc_removes_unconditionally_witness :
    regLookup ([(fileURI "a", ⟨3, "x"⟩)] : List (String × DocMeta)) (fileURI "a") =
        some ⟨3, "x"⟩ ∧
    regLookup ((docStep [(fileURI "a", ⟨3, "x"⟩)] (.closeD "a" false)).1) (fileURI "a") =
        none ∧
    (docStep [(fileURI "a", ⟨3, "x"⟩)] (.closeD "a" false)).2 = .errNotify ∧
    (∀ (content : String) (nOk2 : Bool),
        (docStep ((docStep [(fileURI "a", ⟨3, "x"⟩)] (.closeD "a" false)).1)
            (.openD "a" true (some content) nOk2)).2 ≠ .errAlreadyOpen) := by
  have h := closeDoc_removes_unconditionally [(fileURI "a", ⟨3, "x"⟩)] "a" ⟨3, "x"⟩ false
    (by decide)
  exact ⟨by decide, h.1, h.2.1, h.2.2⟩

/-- A trace without proof-view arrivals never fills the proof-view slot. -/
theorem waitLoop_no_pv (evs : List Arrival) (hno : hasPvArrival evs = false) :
    ∀ (g1 g2 : Bool) (pvA : Option ProofView) (dgA : Option (List Diagnostic)),
      (waitLoop g1 g2 pvA dgA evs).1 = pvA := by
  induction evs with
  | nil => intro g1 g2 pvA dgA; rfl
  | cons ev rest ih =>
      intro g1 g2 pvA dgA
      cases ev with
      | pv v => simp [hasPvArrival] at hno
      | dg d =>
          rw [waitLoop]
          by_cases hg : g1 ∧ g2
          · rw [if_pos hg]
          · rw [if_neg hg]
            exact ih (by simpa [hasPvArrival] using hno) g1 true pvA d
      | timeout =>
          rw [waitLoop]
          by_cases hg : g1 ∧ g2
          · rw [if_pos hg]
          · rw [if_neg hg]

/-- A trace without diagnostics arrivals never fills the diagnostics
slot. -/
theorem waitLoop_no_dg (evs : List Arrival) (hno : hasDgArrival evs = false) :
    ∀ (g1 g2 : Bool) (pvA : Option ProofView) (dgA : Option (List Diagnostic)),
      (waitLoop g1 g2 pvA dgA evs).2 = dgA := by
  induction evs with
  | nil => intro g1 g2 pvA dgA; rfl
  | cons ev rest ih =>
      intro g1 g2 pvA dgA
      cases ev with
      | dg d => simp [hasDgArrival] at hno
      | pv v =>
          rw [waitLoop]
          by_cases hg : g1 ∧ g2
          · rw [if_pos hg]
          · rw [if_neg hg]
            exact ih (by simpa [hasDgArrival] using hno) true g2 (some v) dgA
      | timeout =>
          rw [waitLoop]
          by_cases hg : g1 ∧ g2
          · rw [if_pos hg]
          · rw [if_neg hg]

/-- C10: if the collector loop ends without a proof-view notification in
hand (in particular whenever the arrival trace contains none), the
document's cached `ProofView` field is left unchanged by the collect, and
likewise an absent diagnostics notification leaves the cached
`Diagnostics` field unchanged. -/
theorem collect_leaves_absent_fields (evs : List Arrival) (doc : CollectDoc) :
    (hasPvArrival evs = false → (waitNotifications evs).1 = none) ∧
    (hasDgArrival evs = false → (waitNotifications evs).2 = none) ∧
    ((waitNotifications evs).1 = none →
        (collectState doc evs).proofView = doc.proofView) ∧
    ((waitNotifications evs).2 = none →
        (collectState doc evs).diagnostics = doc.diagnostics) := by
  refine ⟨fun h => waitLoop_no_pv evs h false false none none,
    fun h => waitLoop_no_dg evs h false false none none, ?_, ?_⟩
  · intro h
    unfold collectState applyCollect
    rw [h]
  · intro h
    unfold collectState applyCollect
    rw [h]

/-- C10 (witness): the loop deadline firing with nothing delivered leaves
a concrete document's cached fields unchanged. -/
theorem collect_leaves_absent_fields_witness :
    (hasPvArrival [.timeout] = false ∧ hasDgArrival [.timeout] = false ∧
      (waitNotifications [.timeout]).1 = none ∧ (waitNotifications [.timeout]).2 = none) ∧
    ((collectState ⟨some ⟨[], 1, 0, 0, []⟩, none, some []⟩ [.timeout]).proofView =
        some ⟨[], 1, 0, 0, []⟩ ∧
      (collectState ⟨some ⟨[], 1, 0, 0, []⟩, none, some []⟩ [.timeout]).diagnostics =
        some []) := by
  have h := collect_leaves_absent_fields [.timeout] ⟨some ⟨[], 1, 0, 0, []⟩, none, some []⟩
  exact ⟨⟨rfl, rfl, h.1 rfl, h.2.1 rfl⟩, ⟨h.2.2.1 rfl, h.2.2.2 rfl⟩⟩

/-- C5 (counterexample): a diagnostic whose stored coordinates are all
zero with severity 1 renders as `line 1:0–1:0` — the line coordinates are
one-indexed but the character coordinates are not converted — so the
rendering differs from the fully one-indexed `line 1:1–1:1` the claim
demands. -/
theorem diag_one_indexed_cex :
    formatDiagnosticsStr [⟨⟨⟨0, 0⟩, ⟨0, 0⟩⟩, 1, "m"⟩] =
      "\n=== Diagnostics ===\n[error] line 1:0–1:0: m\n" ∧
    formatDiagnosticsStr [⟨⟨⟨0, 0⟩, ⟨0, 0⟩⟩, 1, "m"⟩] ≠
      "\n=== Diagnostics ===\n[error] line 1:1–1:1: m\n" := by
  exact ⟨rfl, by decide⟩

/-- C5 (amended): for every rendered diagnostic the *line* coordinates of
both positions are converted from zero-indexed storage to one-indexed
output, while the *character* coordinates are rendered exactly as
stored (zero-indexed). -/
theorem diag_lines_one_indexed (ds : List Diagnostic) (h : ds ≠ []) :
    formatDiagnosticsStr ds =
      "\n=== Diagnostics ===\n" ++ String.join (ds.map (fun d =>
        "[" ++ severityName d.severity ++ "] line " ++
          toString (d.range.start.line + 1) ++ ":" ++ toString d.range.start.character ++
          "–" ++ toString (d.range.stop.line + 1) ++ ":" ++
          toString d.range.stop.character ++ ": " ++ d.message ++ "\n")) := by
  unfold formatDiagnosticsStr renderDiag
  rw [if_neg h]

/-- C5 (witness): the amended statement at a diagnostic with distinct
coordinates. -/
theorem diag_lines_one_indexed_witness :
    ([⟨⟨⟨4, 7⟩, ⟨5, 9⟩⟩, 2, "w"⟩] : List Diagnostic) ≠ [] ∧
    formatDiagnosticsStr [⟨⟨⟨4, 7⟩, ⟨5, 9⟩⟩, 2, "w"⟩] =
      "\n=== Diagnostics ===\n" ++ String.join
        (([⟨⟨⟨4, 7⟩, ⟨5, 9⟩⟩, 2, "w"⟩] : List Diagnostic).map (fun d =>
          "[" ++ severityName d.severity ++ "] line " ++
            toString (d.range.start.line + 1) ++ ":" ++ toString d.range.start.character ++
            "–" ++ toString (d.range.stop.line + 1) ++ ":" ++
            toString d.range.stop.character ++ ": " ++ d.message ++ "\n")) := by
  exact ⟨by decide, diag_lines_one_indexed [⟨⟨⟨4, 7⟩, ⟨5, 9⟩⟩, 2, "w"⟩] (by decide)⟩

/-- Appending cannot erase a nonempty right part. -/
theorem str_append_ne_empty_right (a b : String) (h : b ≠ "") : a ++ b ≠ "" := by
  intro he
  apply h
  have hd : (a ++ b).data = [] := by rw [he]
  rw [String.data_append] at hd
  have : b.data = [] := (List.append_eq_nil.mp hd).2
  exact String.ext_iff.mpr this

/-- Appending cannot erase a nonempty left part. -/
theorem str_append_ne_empty_left (a b : String) (h : a ≠ "") : a ++ b ≠ "" := by
  intro he
  apply h
  have hd : (a ++ b).data = [] := by rw [he]
  rw [String.data_append] at hd
  have : a.data = [] := (List.append_eq_nil.mp hd).1
  exact String.ext_iff.mpr this

/-- A comma-join of a list with a nonempty head is nonempty. -/
theorem joinComma_ne_empty (x : String) (xs : List String) (hx : x ≠ "") :
    joinComma (x :: xs) ≠ "" := by
  cases xs with
  | nil => exact hx
  | cons y ys =>
      show x ++ ", " ++ joinComma (y :: ys) ≠ ""
      exact str_append_ne_empty_left _ _ (str_append_ne_empty_right _ _ (by decide))

/-- The summary in the claim's own words: exactly the non-zero counts,
rendered `"N unfocused"` / `"N shelved"` / `"N given up"`, joined by
`", "`. -/
def claimSummary (pv : ProofView) : String :=
  joinComma
    ((if pv.unfocusedCount ≠ 0 then [toString pv.unfocusedCount ++ " unfocused"] else []) ++
     (if pv.shelvedCount ≠ 0 then [toString pv.shelvedCount ++ " shelved"] else []) ++
     (if pv.givenUpCount ≠ 0 then [toString pv.givenUpCount ++ " given up"] else []))

/-- The code's background summary is the claim's summary. -/
theorem fbc_eq_claimSummary (pv : ProofView) :
    formatBackgroundCounts pv = claimSummary pv := by
  unfold formatBackgroundCounts claimSummary
  simp only [gt_iff_lt, Nat.pos_iff_ne_zero]
  by_cases h : ((if pv.unfocusedCount ≠ 0 then [toString pv.unfocusedCount ++ " unfocused"]
      else []) ++
    (if pv.shelvedCount ≠ 0 then [toString pv.shelvedCount ++ " shelved"] else []) ++
    (if pv.givenUpCount ≠ 0 then [toString pv.givenUpCount ++ " given up"] else [])) = []
  · rw [if_pos h, h]
    rfl
  · rw [if_neg h]

/-- With some count non-zero the background summary is nonempty. -/
theorem fbc_ne_empty (pv : ProofView)
    (h : ¬(pv.unfocusedCount = 0 ∧ pv.shelvedCount = 0 ∧ pv.givenUpCount = 0)) :
    formatBackgroundCounts pv ≠ "" := by
  rw [fbc_eq_claimSummary]
  unfold claimSummary
  by_cases h1 : pv.unfocusedCount ≠ 0
  · rw [if_pos h1]
    show joinComma ((toString pv.unfocusedCount ++ " unfocused") :: _) ≠ ""
    exact joinComma_ne_empty _ _ (str_append_ne_empty_right _ _ (by decide))
  · rw [if_neg h1]
    by_cases h2 : pv.shelvedCount ≠ 0
    · rw [if_pos h2]
      show joinComma ((toString pv.shelvedCount ++ " shelved") :: _) ≠ ""
      exact joinComma_ne_empty _ _ (str_append_ne_empty_right _ _ (by decide))
    · rw [if_neg h2]
      by_cases h3 : pv.givenUpCount ≠ 0
      · rw [if_pos h3]
        show joinComma [toString pv.givenUpCount ++ " given up"] ≠ ""
        exact joinComma_ne_empty _ _ (str_append_ne_empty_right _ _ (by decide))
      · exact absurd ⟨by omega, by omega, by omega⟩ h

/-- With every count zero the background summary is empty. -/
theorem fbc_empty (pv : ProofView)
    (h1 : pv.unfocusedCount = 0) (h2 : pv.shelvedCount = 0) (h3 : pv.givenUpCount = 0) :
    formatBackgroundCounts pv = "" := by
  unfold formatBackgroundCounts
  simp [h1, h2, h3]

/-- Associativity of string append, at the level of `String`. -/
theorem str_append_assoc (a b c : String) : a ++ b ++ c = a ++ (b ++ c) := by
  apply String.ext_iff.mpr
  simp [String.data_append]

set_option maxHeartbeats 1000000 in
/-- C4: for a proof view with no focused goals, the full formatter's
output begins with `"Proof complete!\n"` when all three background counts
are zero, and otherwise begins with
`"No focused goals. <summary> remaining.\n"`, where `<summary>` joins
exactly the non-zero counts as `"N unfocused"`, `"N shelved"`,
`"N given up"`, separated by `", "`. -/
theorem format_empty_goals_header (pv : ProofView) (diags : List Diagnostic)
    (hg : pv.goals = []) :
    (pv.unfocusedCount = 0 ∧ pv.shelvedCount = 0 ∧ pv.givenUpCount = 0 →
        "Proof complete!\n".data <+: (formatFullResults (some pv) diags).data) ∧
    (¬(pv.unfocusedCount = 0 ∧ pv.shelvedCount = 0 ∧ pv.givenUpCount = 0) →
        ("No focused goals. " ++ claimSummary pv ++ " remaining.\n").data <+:
          (formatFullResults (some pv) diags).data) := by
  constructor
  · intro hz
    have hbg := fbc_empty pv hz.1 hz.2.1 hz.2.2
    have hform : formatFullResults (some pv) diags =
        "Proof complete!\n" ++
          ((if pv.messages ≠ [] then
              "\n=== Messages ===\n" ++ String.join (pv.messages.map (fun m => m ++ "\n"))
            else "") ++ formatDiagnosticsStr diags) := by
      unfold formatFullResults
      simp only [hg, hbg]
      rw [if_neg (by
        exact str_append_ne_empty_left _ _ (str_append_ne_empty_left _ _ (by decide)))]
      simp [str_append_assoc]
    rw [hform, String.data_append]
    exact List.prefix_append _ _
  · intro hnz
    have hbg := fbc_ne_empty pv hnz
    have hform : formatFullResults (some pv) diags =
        ("No focused goals. " ++ formatBackgroundCounts pv ++ " remaining.\n") ++
          ((if pv.messages ≠ [] then
              "\n=== Messages ===\n" ++ String.join (pv.messages.map (fun m => m ++ "\n"))
            else "") ++ formatDiagnosticsStr diags) := by
      unfold formatFullResults
      simp only [hg, hbg, if_true, if_false, ite_true, ite_false]
      rw [if_neg (by
        exact str_append_ne_empty_left _ _ (str_append_ne_empty_left _ _
          (str_append_ne_empty_left _ _ (str_append_ne_empty_left _ _
            (str_append_ne_empty_left _ _ (by decide))))))]
      simp [str_append_assoc]
    rw [hform, ← fbc_eq_claimSummary, String.data_append]
    exact List.prefix_append _ _

/-- C4 (witness): a goal-free proof view with two unfocused and one
given-up background goal renders the expected `No focused goals.`
prefix. -/
theorem format_empty_goals_header_witness :
    ((⟨[], 2, 0, 1, []⟩ : ProofView).goals = [] ∧
      ¬((2 : Nat) = 0 ∧ (0 : Nat) = 0 ∧ (1 : Nat) = 0)) ∧
    ("No focused goals. " ++ claimSummary ⟨[], 2, 0, 1, []⟩ ++ " remaining.\n").data <+:
      (formatFullResults (some ⟨[], 2, 0, 1, []⟩) []).data := by
  refine ⟨⟨rfl, by decide⟩, ?_⟩
  exact (format_empty_goals_header ⟨[], 2, 0, 1, []⟩ [] rfl).2 (by decide)

end RocqMcp
